import Mathlib

/-!
Verification of the Primer Spec enhanced code block engine
(`src_js/components/main_content/useEnhancedCodeBlocks.tsx`).

The file is a shallow embedding of the module: JavaScript strings are Lean
strings manipulated through character lists, JavaScript numbers arising from
string coercion are exact rationals (with `none` standing for NaN and the
infinities), the DOM is an inductive tree of element and text nodes, and the
stateful enhancement pass is explicit state passing.  Definitions are
translated from the TypeScript source; definitions translated from the
specification text instead are marked as such in their doc comments.
-/

set_option autoImplicit false
set_option maxRecDepth 4000
set_option linter.unusedVariables false

attribute [local semireducible] Rat.add Rat.sub Rat.mul

namespace EnhancedCodeBlocks

/-! ### JavaScript string primitives -/

/-- Characters treated as whitespace by JavaScript string trimming and by the
ToNumber coercion: space, tab, LF, CR, VT, FF and NBSP. -/
def isJsWhitespace (c : Char) : Bool :=
  c = ' ' || c = '\t' || c = '\n' || c = '\r' ||
    c = '\x0b' || c = '\x0c' || c = ' '

/-- JavaScript `str.trim()`. -/
def jsTrim (s : String) : String :=
  String.mk (((s.toList.dropWhile isJsWhitespace).reverse.dropWhile
    isJsWhitespace).reverse)

/-- JavaScript `str.split(sep)` for a single-character separator, over a
character list: every segment is kept, including empty ones. -/
def splitCharList (sep : Char) : List Char → List (List Char)
  | [] => [[]]
  | c :: cs =>
    match splitCharList sep cs with
    | [] => [[]]
    | h :: t => if c = sep then [] :: h :: t else (c :: h) :: t

/-- JavaScript `str.split(sep)` for a single-character separator. -/
def jsSplit (sep : Char) (s : String) : List String :=
  (splitCharList sep s.toList).map String.mk

/-! ### JavaScript number coercion (`+str`)

JavaScript numbers coming out of `+str` are modeled as exact rationals;
`none` stands for a non-finite result (NaN or an infinity).  Every use the
source makes of such a number is a comparison, and every JavaScript
comparison against NaN or against an infinity outside `[lower, upper]` is
false, which the embeddings of the comparisons reflect. -/

/-- The numeric value of one digit character in the given base, if valid. -/
def digitValue? (base : Nat) (c : Char) : Option Nat :=
  let v : Option Nat :=
    if '0' ≤ c && c ≤ '9' then some (c.toNat - '0'.toNat)
    else if 'a' ≤ c && c ≤ 'z' then some (c.toNat - 'a'.toNat + 10)
    else if 'A' ≤ c && c ≤ 'Z' then some (c.toNat - 'A'.toNat + 10)
    else none
  match v with
  | some d => if d < base then some d else none
  | none => none

/-- Parse a nonempty string of digits in the given base. -/
def digitsToNat? (base : Nat) (cs : List Char) : Option Nat :=
  if cs.isEmpty then none
  else
    cs.foldl (fun acc c =>
      match acc, digitValue? base c with
      | some n, some d => some (base * n + d)
      | _, _ => none) (some 0)

/-- Parse the unsigned decimal mantissa of a JavaScript numeric string:
`digits`, `digits.digits`, `digits.` or `.digits`. -/
def parseDecMantissa (cs : List Char) : Option ℚ :=
  let p := cs.span (fun c => c != '.')
  match p.2 with
  | [] => (digitsToNat? 10 p.1).map (fun n => (n : ℚ))
  | _ :: fracPart =>
    if p.1.isEmpty && fracPart.isEmpty then none
    else
      let ipVal : Option Nat := if p.1.isEmpty then some 0 else digitsToNat? 10 p.1
      let fpVal : Option Nat := if fracPart.isEmpty then some 0 else digitsToNat? 10 fracPart
      match ipVal, fpVal with
      | some i, some f =>
        some (Rat.divInt ((i * 10 ^ fracPart.length + f : Nat) : Int)
          ((10 ^ fracPart.length : Nat) : Int))
      | _, _ => none

/-- Ten raised to an integer power, as a rational. -/
def pow10 (e : Int) : ℚ :=
  match e with
  | .ofNat n => ((10 ^ n : Nat) : ℚ)
  | .negSucc n => Rat.divInt 1 (((10 ^ (n + 1) : Nat)) : Int)

/-- Parse the exponent suffix of a JavaScript numeric string (the part after
`e` or `E`): an optional sign followed by at least one digit. -/
def parseExponent (cs : List Char) : Option Int :=
  match cs with
  | '+' :: r => (digitsToNat? 10 r).map Int.ofNat
  | '-' :: r => (digitsToNat? 10 r).map (fun n => -(n : Int))
  | r => (digitsToNat? 10 r).map Int.ofNat

/-- Parse an unsigned JavaScript decimal literal: a mantissa with an optional
`e`/`E` exponent.  Values are exact rationals. -/
def parseDecLiteral (cs : List Char) : Option ℚ :=
  let p := cs.span (fun c => c != 'e' && c != 'E')
  match p.2 with
  | [] => parseDecMantissa p.1
  | _ :: expPart =>
    match parseDecMantissa p.1, parseExponent expPart with
    | some m, some e => some (m * pow10 e)
    | _, _ => none

/-- JavaScript ToNumber coercion of a string, as performed by `+str` in the
source: trim, empty string is `0`, then a signed decimal literal, `Infinity`,
or an unsigned hex / binary / octal literal; anything else is NaN (`none`;
the infinities are also `none`, see above). -/
def jsStringToNumber (s : String) : Option ℚ :=
  match (jsTrim s).toList with
  | [] => some 0
  | '0' :: 'x' :: r => (digitsToNat? 16 r).map (fun n => (n : ℚ))
  | '0' :: 'X' :: r => (digitsToNat? 16 r).map (fun n => (n : ℚ))
  | '0' :: 'b' :: r => (digitsToNat? 2 r).map (fun n => (n : ℚ))
  | '0' :: 'B' :: r => (digitsToNat? 2 r).map (fun n => (n : ℚ))
  | '0' :: 'o' :: r => (digitsToNat? 8 r).map (fun n => (n : ℚ))
  | '0' :: 'O' :: r => (digitsToNat? 8 r).map (fun n => (n : ℚ))
  | cs =>
    let sb : ℚ × List Char :=
      match cs with
      | '+' :: r => (1, r)
      | '-' :: r => (-1, r)
      | r => (1, r)
    if sb.2 = "Infinity".toList then none
    else (parseDecLiteral sb.2).map (fun q => sb.1 * q)

/-! ### The range parser (`parseCodeHighlightRanges`) -/

/-- Source `isNumWithinInclusiveRange(num, lower, upper)`:
`num != null && !Number.isNaN(num) && num >= lower && num <= upper`.
`none` models both null and a non-finite number; the comparisons are false on
either. -/
def isNumWithinInclusiveRange (num : Option ℚ) (lower upper : ℚ) : Bool :=
  match num with
  | some n => decide (lower ≤ n) && decide (n ≤ upper)
  | none => false

/-- The JavaScript comparison `a <= b` on possibly non-finite numbers.  In the
source it is evaluated only after both operands passed
`isNumWithinInclusiveRange`, so the `none` cases are never reached there. -/
def jsNumLe (a b : Option ℚ) : Bool :=
  match a, b with
  | some x, some y => decide (x ≤ y)
  | _, _ => false

/-- The values visited by the source loop
`for (let i = lower; i <= upper; ++i)`. -/
def forLoopValues (lower upper : ℚ) : List ℚ :=
  if lower ≤ upper then
    (List.range (⌊upper - lower⌋.toNat + 1)).map (fun (k : ℕ) => lower + (k : ℚ))
  else []

/-- The else-block of the `ranges.forEach` loop of `parseCodeHighlightRanges`:
`range.trim().split('-')`; if that yields exactly two parts, both finite and
within `[1, maxLineNumber]` with `lower <= upper`, add each value visited by
`for (let i = lower; i <= upper; ++i)`. -/
def parseRangePairBranch (maxLineNumber : ℚ) (highlightedLines : Finset ℚ)
    (range : String) : Finset ℚ :=
  match jsSplit '-' (jsTrim range) with
  | [part0, part1] =>
    if isNumWithinInclusiveRange (jsStringToNumber part0) 1 maxLineNumber &&
        isNumWithinInclusiveRange (jsStringToNumber part1) 1 maxLineNumber &&
        jsNumLe (jsStringToNumber part0) (jsStringToNumber part1) then
      (forLoopValues ((jsStringToNumber part0).getD 0)
          ((jsStringToNumber part1).getD 0)).foldl
        (fun acc i => insert i acc) highlightedLines
    else highlightedLines
  | _ => highlightedLines

/-- One iteration of the `ranges.forEach` loop of `parseCodeHighlightRanges`:
first try the token as a single number (`+range`); if it is finite and within
`[1, maxLineNumber]` add it, otherwise run the pair branch. -/
def parseRangeToken (maxLineNumber : ℚ) (highlightedLines : Finset ℚ)
    (range : String) : Finset ℚ :=
  if isNumWithinInclusiveRange (jsStringToNumber range) 1 maxLineNumber then
    insert ((jsStringToNumber range).getD 0) highlightedLines
  else
    parseRangePairBranch maxLineNumber highlightedLines range

/-- Source `parseCodeHighlightRanges(rawHighlightRanges, maxLineNumber)`.
`none` models a null argument; `!rawHighlightRanges` is true for null and for
the empty string, both yielding the empty set. -/
def parseCodeHighlightRanges (rawHighlightRanges : Option String)
    (maxLineNumber : ℚ) : Finset ℚ :=
  match rawHighlightRanges with
  | none => ∅
  | some raw =>
    if raw = "" then ∅
    else (jsSplit ',' raw).foldl (parseRangeToken maxLineNumber) ∅

example : parseCodeHighlightRanges (some "13,24-26,25-27") 100 =
    ({13, 24, 25, 26, 27} : Finset ℚ) := by decide

example : parseCodeHighlightRanges (some "3-1") 10 = ∅ := by decide

example : parseCodeHighlightRanges (some "0,5,200") 10 = ({5} : Finset ℚ) := by decide

example : parseCodeHighlightRanges (some "1.5-3") 10 =
    ({Rat.divInt 3 2, Rat.divInt 5 2} : Finset ℚ) := by decide

/-! ### The range parser of the specification, for comparison -/

/-- Modelled from the spec (§4.1, claim C1): contribution of a `lower-upper`
token — split the trimmed token on a hyphen into exactly two parts; if both
parse as finite numbers within `[1, max]` with `lower <= upper`, contribute
every integer in `[lower, upper]`. -/
def specRangePairContribution (maxLineNumber : ℚ) (token : String) : Finset ℚ :=
  match jsSplit '-' (jsTrim token) with
  | [a, b] =>
    match jsStringToNumber a, jsStringToNumber b with
    | some lower, some upper =>
      if 1 ≤ lower ∧ lower ≤ maxLineNumber ∧ 1 ≤ upper ∧ upper ≤ maxLineNumber
          ∧ lower ≤ upper then
        (Finset.Icc ⌈lower⌉ ⌊upper⌋).image (fun k : ℤ => (k : ℚ))
      else ∅
    | _, _ => ∅
  | _ => ∅

/-- The image of `Finset.Icc ⌈lower⌉ ⌊upper⌋` under the cast is exactly "every
integer in `[lower, upper]`", confirming that `specRangePairContribution`
renders the words of the spec. -/
theorem mem_image_Icc_ceil_floor (lower upper x : ℚ) :
    (x ∈ (Finset.Icc ⌈lower⌉ ⌊upper⌋).image (fun k : ℤ => (k : ℚ))) ↔
      ((∃ k : ℤ, (k : ℚ) = x) ∧ lower ≤ x ∧ x ≤ upper) := by
  simp only [Finset.mem_image, Finset.mem_Icc]
  constructor
  · rintro ⟨k, ⟨hk1, hk2⟩, rfl⟩
    exact ⟨⟨k, rfl⟩, Int.ceil_le.mp hk1, Int.le_floor.mp hk2⟩
  · rintro ⟨⟨k, rfl⟩, h1, h2⟩
    exact ⟨k, ⟨Int.ceil_le.mpr h1, Int.le_floor.mpr h2⟩, rfl⟩

/-- Modelled from the spec (§4.1, claim C1): contribution of a single token —
if it parses as a single finite number within `[1, max]`, that number;
otherwise the pair contribution. -/
def specTokenContribution (maxLineNumber : ℚ) (token : String) : Finset ℚ :=
  match jsStringToNumber token with
  | some n =>
    if 1 ≤ n ∧ n ≤ maxLineNumber then {n}
    else specRangePairContribution maxLineNumber token
  | none => specRangePairContribution maxLineNumber token

/-- Modelled from the spec (§4.1, claim C1): the reference range parser —
split on commas and take the union of the token contributions; absent or
empty input yields the empty set. -/
def specParseRanges (input : Option String) (maxLineNumber : ℚ) : Finset ℚ :=
  match input with
  | none => ∅
  | some s =>
    if s = "" then ∅
    else ((jsSplit ',' s).map (specTokenContribution maxLineNumber)).foldr (· ∪ ·) ∅

/-- Modelled from the spec, amended after the counterexample: the pair branch
contributes the values `lower, lower + 1, lower + 2, ...` while they do not
exceed `upper` (which is every integer in `[lower, upper]` exactly when
`lower` is an integer). -/
def specAmendedPairContribution (maxLineNumber : ℚ) (token : String) : Finset ℚ :=
  match jsSplit '-' (jsTrim token) with
  | [a, b] =>
    match jsStringToNumber a, jsStringToNumber b with
    | some lower, some upper =>
      if 1 ≤ lower ∧ lower ≤ maxLineNumber ∧ 1 ≤ upper ∧ upper ≤ maxLineNumber
          ∧ lower ≤ upper then
        (forLoopValues lower upper).toFinset
      else ∅
    | _, _ => ∅
  | _ => ∅

/-- The amended reference: single-number tokens as in the spec, pair tokens
through `specAmendedPairContribution`. -/
def specAmendedTokenContribution (maxLineNumber : ℚ) (token : String) : Finset ℚ :=
  match jsStringToNumber token with
  | some n =>
    if 1 ≤ n ∧ n ≤ maxLineNumber then {n}
    else specAmendedPairContribution maxLineNumber token
  | none => specAmendedPairContribution maxLineNumber token

/-- The amended reference range parser. -/
def specParseRangesAmended (input : Option String) (maxLineNumber : ℚ) : Finset ℚ :=
  match input with
  | none => ∅
  | some s =>
    if s = "" then ∅
    else ((jsSplit ',' s).map (specAmendedTokenContribution maxLineNumber)).foldr
      (· ∪ ·) ∅

/-! ### Range parser lemmas -/

theorem foldl_insert_eq_union (l : List ℚ) (acc : Finset ℚ) :
    l.foldl (fun a i => insert i a) acc = acc ∪ l.toFinset := by
  induction l generalizing acc with
  | nil => simp
  | cons x xs ih =>
    simp only [List.foldl_cons, List.toFinset_cons, ih]
    rw [Finset.union_insert, Finset.insert_union]

theorem parseRangePairBranch_eq_amended (maxLineNumber : ℚ) (acc : Finset ℚ)
    (tok : String) :
    parseRangePairBranch maxLineNumber acc tok =
      acc ∪ specAmendedPairContribution maxLineNumber tok := by
  rcases hs : jsSplit '-' (jsTrim tok) with _ | ⟨part0, _ | ⟨part1, _ | ⟨c, cs⟩⟩⟩ <;>
    simp only [parseRangePairBranch, specAmendedPairContribution, hs,
      Finset.union_empty]
  rcases h0 : jsStringToNumber part0 with _ | l <;>
    rcases h1 : jsStringToNumber part1 with _ | u <;>
      simp only [isNumWithinInclusiveRange, jsNumLe, Bool.false_and,
        Bool.and_false, Bool.false_eq_true, if_false, Finset.union_empty]
  by_cases hcond : 1 ≤ l ∧ l ≤ maxLineNumber ∧ 1 ≤ u ∧ u ≤ maxLineNumber ∧ l ≤ u
  · obtain ⟨c1, c2, c3, c4, c5⟩ := hcond
    have hb : ((decide (1 ≤ l) && decide (l ≤ maxLineNumber)) &&
        (decide (1 ≤ u) && decide (u ≤ maxLineNumber)) && decide (l ≤ u)) = true := by
      simp only [Bool.and_eq_true, decide_eq_true_eq]
      exact ⟨⟨⟨c1, c2⟩, c3, c4⟩, c5⟩
    rw [if_pos hb, if_pos ⟨c1, c2, c3, c4, c5⟩, foldl_insert_eq_union]
    simp
  · have hb : ¬ (((decide (1 ≤ l) && decide (l ≤ maxLineNumber)) &&
        (decide (1 ≤ u) && decide (u ≤ maxLineNumber)) && decide (l ≤ u)) = true) := by
      simp only [Bool.and_eq_true, decide_eq_true_eq]
      intro hc
      exact hcond ⟨hc.1.1.1, hc.1.1.2, hc.1.2.1, hc.1.2.2, hc.2⟩
    rw [if_neg hb, if_neg hcond]
    simp

theorem parseRangeToken_eq_amended (maxLineNumber : ℚ) (acc : Finset ℚ)
    (tok : String) :
    parseRangeToken maxLineNumber acc tok =
      acc ∪ specAmendedTokenContribution maxLineNumber tok := by
  rcases hn : jsStringToNumber tok with _ | n <;>
    simp only [parseRangeToken, specAmendedTokenContribution, hn,
      isNumWithinInclusiveRange, Bool.false_eq_true, if_false, Option.getD_some]
  · exact parseRangePairBranch_eq_amended maxLineNumber acc tok
  · by_cases hin : 1 ≤ n ∧ n ≤ maxLineNumber
    · have hb : (decide (1 ≤ n) && decide (n ≤ maxLineNumber)) = true := by
        simp only [Bool.and_eq_true, decide_eq_true_eq]
        exact hin
      rw [if_pos hb, if_pos hin, Finset.insert_eq, Finset.union_comm]
    · have hb : ¬ ((decide (1 ≤ n) && decide (n ≤ maxLineNumber)) = true) := by
        simp only [Bool.and_eq_true, decide_eq_true_eq]
        exact hin
      rw [if_neg hb, if_neg hin]
      exact parseRangePairBranch_eq_amended maxLineNumber acc tok

theorem foldl_parseRangeToken_eq (maxLineNumber : ℚ) (toks : List String)
    (acc : Finset ℚ) :
    toks.foldl (parseRangeToken maxLineNumber) acc =
      acc ∪ (toks.map (specAmendedTokenContribution maxLineNumber)).foldr (· ∪ ·) ∅ := by
  induction toks generalizing acc with
  | nil => simp
  | cons t ts ih =>
    simp only [List.foldl_cons, List.map_cons, List.foldr_cons, ih,
      parseRangeToken_eq_amended, Finset.union_assoc]

theorem parseCodeHighlightRanges_eq_specAmended (input : Option String)
    (maxLineNumber : ℚ) :
    parseCodeHighlightRanges input maxLineNumber =
      specParseRangesAmended input maxLineNumber := by
  rcases input with _ | s
  · rfl
  · unfold parseCodeHighlightRanges specParseRangesAmended
    by_cases hs : s = ""
    · simp [hs]
    · simp only [if_neg hs]
      rw [foldl_parseRangeToken_eq]
      simp

theorem mem_forLoopValues {lower upper x : ℚ} (h : x ∈ forLoopValues lower upper) :
    lower ≤ x ∧ x ≤ upper := by
  unfold forLoopValues at h
  by_cases hle : lower ≤ upper
  · rw [if_pos hle, List.mem_map] at h
    obtain ⟨k, hk, rfl⟩ := h
    rw [List.mem_range] at hk
    have hk' : (k : ℤ) ≤ ⌊upper - lower⌋ := by
      have hnn : (0 : ℤ) ≤ ⌊upper - lower⌋ := Int.floor_nonneg.mpr (by linarith)
      omega
    have hq : (k : ℚ) ≤ upper - lower := by
      have h2 : ((k : ℤ) : ℚ) ≤ ((⌊upper - lower⌋ : ℤ) : ℚ) := by exact_mod_cast hk'
      have h3 := Int.floor_le (upper - lower)
      push_cast at h2
      linarith
    have hk0 : (0 : ℚ) ≤ (k : ℚ) := Nat.cast_nonneg k
    exact ⟨by linarith, by linarith⟩
  · rw [if_neg hle] at h
    simp at h

theorem mem_specAmendedPairContribution {maxLineNumber x : ℚ} {tok : String}
    (h : x ∈ specAmendedPairContribution maxLineNumber tok) :
    1 ≤ x ∧ x ≤ maxLineNumber := by
  unfold specAmendedPairContribution at h
  split at h
  · split at h
    · split at h
      · rename_i lower upper hcond
        rw [List.mem_toFinset] at h
        obtain ⟨h1, h2⟩ := mem_forLoopValues h
        exact ⟨le_trans hcond.1 h1, le_trans h2 hcond.2.2.2.1⟩
      · simp at h
    · simp at h
  · simp at h

theorem mem_specAmendedTokenContribution {maxLineNumber x : ℚ} {tok : String}
    (h : x ∈ specAmendedTokenContribution maxLineNumber tok) :
    1 ≤ x ∧ x ≤ maxLineNumber := by
  unfold specAmendedTokenContribution at h
  split at h
  · split at h
    · rename_i n hin
      simp only [Finset.mem_singleton] at h
      subst h
      exact hin
    · exact mem_specAmendedPairContribution h
  · exact mem_specAmendedPairContribution h

theorem mem_foldr_union_contributions {toks : List String} {maxLineNumber x : ℚ}
    (h : x ∈ (toks.map (specAmendedTokenContribution maxLineNumber)).foldr
      (· ∪ ·) ∅) :
    1 ≤ x ∧ x ≤ maxLineNumber := by
  induction toks with
  | nil => simp at h
  | cons t ts ih =>
    simp only [List.map_cons, List.foldr_cons, Finset.mem_union] at h
    rcases h with h | h
    · exact mem_specAmendedTokenContribution h
    · exact ih h

theorem mem_parseCodeHighlightRanges {input : Option String} {maxLineNumber x : ℚ}
    (h : x ∈ parseCodeHighlightRanges input maxLineNumber) :
    1 ≤ x ∧ x ≤ maxLineNumber := by
  rw [parseCodeHighlightRanges_eq_specAmended] at h
  rcases input with _ | s
  · simp [specParseRangesAmended] at h
  · simp only [specParseRangesAmended] at h
    by_cases hs : s = ""
    · rw [if_pos hs] at h
      simp at h
    · rw [if_neg hs] at h
      exact mem_foldr_union_contributions h

/-! ### Claims C1 and C5 -/

/-- C1 counterexample: the claim fails on the input string `"1.5-3"` with
`maxLineNumber = 100`.  The source adds the loop values `1.5` and `2.5`
(stepping by one from `lower`), while the reference of the claim adds every
integer in `[1.5, 3]`, namely `2` and `3`. -/
theorem c1_counterexample :
    parseCodeHighlightRanges (some "1.5-3") 100 ≠ specParseRanges (some "1.5-3") 100 := by
  decide

/-- C1 (amended): for every input string and every `maxLineNumber`,
`parseCodeHighlightRanges` equals the reference algorithm of spec §4.1 with
the pair branch amended to add the values `lower, lower + 1, ...` not
exceeding `upper`; and the two concrete examples of the claim hold:
`parseCodeHighlightRanges("13,24-26,25-27", 100) = {13, 24, 25, 26, 27}` and
`parseCodeHighlightRanges("3-1", 10) = {}` (lower > upper rejected, not
swapped). -/
theorem c1_parser_refines_amended_spec :
    (∀ (s : Option String) (maxLineNumber : ℚ),
      parseCodeHighlightRanges s maxLineNumber = specParseRangesAmended s maxLineNumber)
    ∧ parseCodeHighlightRanges (some "13,24-26,25-27") 100 =
        ({13, 24, 25, 26, 27} : Finset ℚ)
    ∧ parseCodeHighlightRanges (some "3-1") 10 = ∅ :=
  ⟨parseCodeHighlightRanges_eq_specAmended, by decide, by decide⟩

/-- C5: every member of the set returned by `parseCodeHighlightRanges` lies
within `[1, maxLineNumber]` (the function is total, so it never throws), and
`parseCodeHighlightRanges("0,5,200", 10) = {5}`. -/
theorem c5_members_within_range :
    (∀ (s : Option String) (maxLineNumber x : ℚ),
      x ∈ parseCodeHighlightRanges s maxLineNumber → 1 ≤ x ∧ x ≤ maxLineNumber)
    ∧ parseCodeHighlightRanges (some "0,5,200") 10 = ({5} : Finset ℚ) :=
  ⟨fun _ _ _ h => mem_parseCodeHighlightRanges h, by decide⟩

/-- Witness for C5 at a concrete input: `5` is a member of the parse of
`"0,5,200"` with `maxLineNumber = 10`, and the theorem places it in `[1, 10]`. -/
theorem c5_members_within_range_witness : 1 ≤ (5 : ℚ) ∧ (5 : ℚ) ≤ 10 :=
  c5_members_within_range.1 (some "0,5,200") 10 5 (by decide)

/-! ### DOM model

A DOM node is an element (tag name stored uppercase, exactly as `tagName`
reports it for HTML elements; attributes in order; children) or a text node.
Comment and other node kinds do not occur in the modeled trees.  Nodes are
immutable values; the mutations of the source become functional updates. -/

inductive DNode where
  | elem (tag : String) (attrs : List (String × String)) (children : List DNode)
  | text (s : String)

mutual

/-- Boolean structural equality of nodes. -/
def dBeq : DNode → DNode → Bool
  | .text s, .text t => decide (s = t)
  | .elem t1 a1 c1, .elem t2 a2 c2 =>
    decide (t1 = t2) && decide (a1 = a2) && dBeqList c1 c2
  | _, _ => false

/-- Boolean structural equality of node lists. -/
def dBeqList : List DNode → List DNode → Bool
  | [], [] => true
  | x :: xs, y :: ys => dBeq x y && dBeqList xs ys
  | _, _ => false

end

mutual

theorem dBeq_iff_eq : ∀ (a b : DNode), dBeq a b = true ↔ a = b
  | .text s, .text t => by simp [dBeq]
  | .elem t1 a1 c1, .elem t2 a2 c2 => by
    simp only [dBeq, Bool.and_eq_true, decide_eq_true_eq, dBeqList_iff_eq c1 c2,
      DNode.elem.injEq]
    tauto
  | .text _, .elem _ _ _ => by simp [dBeq]
  | .elem _ _ _, .text _ => by simp [dBeq]

theorem dBeqList_iff_eq : ∀ (xs ys : List DNode), dBeqList xs ys = true ↔ xs = ys
  | [], [] => by simp [dBeqList]
  | x :: xs, y :: ys => by
    simp only [dBeqList, Bool.and_eq_true, dBeq_iff_eq x y, dBeqList_iff_eq xs ys,
      List.cons.injEq]
  | [], _ :: _ => by simp [dBeqList]
  | _ :: _, [] => by simp [dBeqList]

end

instance : DecidableEq DNode := fun a b =>
  decidable_of_iff (dBeq a b = true) (dBeq_iff_eq a b)

/-- Whether the node is an element (`nodeType === Node.ELEMENT_NODE`). -/
def DNode.isElem : DNode → Bool
  | .elem _ _ _ => true
  | .text _ => false

/-- `tagName`; the empty string for a text node (never consulted there). -/
def DNode.tag : DNode → String
  | .elem t _ _ => t
  | .text _ => ""

/-- The attribute list; empty for a text node. -/
def DNode.attrs : DNode → List (String × String)
  | .elem _ a _ => a
  | .text _ => []

/-- `childNodes`; empty for a text node. -/
def DNode.children : DNode → List DNode
  | .elem _ _ cs => cs
  | .text _ => []

/-- Look up an attribute by name (first match). -/
def getAttr? (attrs : List (String × String)) (name : String) : Option String :=
  match attrs with
  | [] => none
  | (n, v) :: rest => if n = name then some v else getAttr? rest name

/-- `getAttribute`, with absence as `none`. -/
def DNode.attr? (n : DNode) (name : String) : Option String :=
  getAttr? n.attrs name

/-- `element.id`: the id attribute, or the empty string when absent. -/
def DNode.idStr (n : DNode) : String :=
  (n.attr? "id").getD ""

/-- Set an attribute: replace the first entry of that name in place, or
append a new entry. -/
def setAttr (attrs : List (String × String)) (name v : String) :
    List (String × String) :=
  match attrs with
  | [] => [(name, v)]
  | (n, w) :: rest =>
    if n = name then (n, v) :: rest else (n, w) :: setAttr rest name v

/-- `setAttribute` on a node (identity on text nodes). -/
def DNode.setAttrN (n : DNode) (name v : String) : DNode :=
  match n with
  | .elem t a cs => .elem t (setAttr a name v) cs
  | .text s => .text s

/-- The `classList` of an element: the class attribute split on spaces (empty
segments from repeated spaces are never matched against nonempty names). -/
def DNode.classList (n : DNode) : List String :=
  jsSplit ' ' ((n.attr? "class").getD "")

/-- `classList.contains(c)`. -/
def DNode.hasClass (n : DNode) (c : String) : Bool :=
  (n.classList.filter (fun x => x = c)).length > 0

/-- `classList.add(c)`: append the token to the class attribute unless it is
already present. -/
def DNode.addClass (n : DNode) (c : String) : DNode :=
  if n.hasClass c then n
  else
    match n.attr? "class" with
    | none => n.setAttrN "class" c
    | some "" => n.setAttrN "class" c
    | some cur => n.setAttrN "class" (cur ++ " " ++ c)

mutual

/-- `textContent`: the concatenated text of the node and its descendants. -/
def textContent : DNode → String
  | .text s => s
  | .elem _ _ cs => textContentList cs

/-- `textContent` of a child list, in order. -/
def textContentList : List DNode → String
  | [] => ""
  | c :: cs => textContent c ++ textContentList cs

end

/-- `innerText` of the rendered fragments modeled here.  None of the nodes
the module builds carry hidden content or block-level layout inside a line,
so the visible text coincides with `textContent`. -/
def DNode.innerText (n : DNode) : String :=
  textContentList n.children

/-- `firstElementChild`-style helper: the first element of a child list. -/
def firstElementChild? (cs : List DNode) : Option DNode :=
  match cs with
  | [] => none
  | c :: rest => if c.isElem then some c else firstElementChild? rest

/-- `node.firstElementChild`. -/
def DNode.firstElementChild? (n : DNode) : Option DNode :=
  EnhancedCodeBlocks.firstElementChild? n.children

/-- `node.firstChild`. -/
def DNode.firstChild? (n : DNode) : Option DNode :=
  n.children.head?

/-! ### Selectors

The source only ever queries by a single class (`.cls`), by a tag name
(`pre`), by a tag with a class (`div.highlighter-rouge`), or by an id
(`#id`); a selector is modeled as that. -/

/-- The selectors used by the module. -/
inductive Sel where
  | byClass (cls : String)
  | byTag (tag : String)
  | byTagClass (tag cls : String)
  | byId (id : String)

/-- Whether one node matches a selector. -/
def matchesSel (s : Sel) (n : DNode) : Bool :=
  match s with
  | .byClass c => n.isElem && n.hasClass c
  | .byTag t => n.isElem && n.tag = t
  | .byTagClass t c => n.isElem && n.tag = t && n.hasClass c
  | .byId i => n.isElem && n.idStr = i

mutual

/-- All descendants of a node (excluding the node itself) matching a
selector, in document (pre-)order: `querySelectorAll`. -/
def queryAll (s : Sel) (n : DNode) : List DNode :=
  match n with
  | .elem _ _ cs => queryAllList s cs
  | .text _ => []

/-- All nodes of a forest matching a selector, each followed by its matching
descendants, in document order. -/
def queryAllList (s : Sel) (ns : List DNode) : List DNode :=
  match ns with
  | [] => []
  | c :: rest =>
    (if matchesSel s c then [c] else []) ++ queryAll s c ++ queryAllList s rest

end

/-- `querySelector`: the first descendant matching the selector. -/
def query? (s : Sel) (n : DNode) : Option DNode :=
  (queryAll s n).head?

/-! ### HTML serialization (the `innerHTML` getter) -/

/-- ASCII lowercasing of one character, by table (`A`-`Z` only). -/
def lowerAsciiChar (c : Char) : Char :=
  match getAttr? [("A", "a"), ("B", "b"), ("C", "c"), ("D", "d"), ("E", "e"),
      ("F", "f"), ("G", "g"), ("H", "h"), ("I", "i"), ("J", "j"), ("K", "k"),
      ("L", "l"), ("M", "m"), ("N", "n"), ("O", "o"), ("P", "p"), ("Q", "q"),
      ("R", "r"), ("S", "s"), ("T", "t"), ("U", "u"), ("V", "v"), ("W", "w"),
      ("X", "x"), ("Y", "y"), ("Z", "z")] (String.mk [c]) with
  | some l => l.toList.headD c
  | none => c

/-- ASCII uppercasing of one character, by table (`a`-`z` only). -/
def upperAsciiChar (c : Char) : Char :=
  match getAttr? [("a", "A"), ("b", "B"), ("c", "C"), ("d", "D"), ("e", "E"),
      ("f", "F"), ("g", "G"), ("h", "H"), ("i", "I"), ("j", "J"), ("k", "K"),
      ("l", "L"), ("m", "M"), ("n", "N"), ("o", "O"), ("p", "P"), ("q", "Q"),
      ("r", "R"), ("s", "S"), ("t", "T"), ("u", "U"), ("v", "V"), ("w", "W"),
      ("x", "X"), ("y", "Y"), ("z", "Z")] (String.mk [c]) with
  | some u => u.toList.headD c
  | none => c

/-- ASCII lowercasing of a string. -/
def lowerAscii (s : String) : String :=
  String.mk (s.toList.map lowerAsciiChar)

/-- ASCII uppercasing of a string. -/
def upperAscii (s : String) : String :=
  String.mk (s.toList.map upperAsciiChar)

/-- Escaping of one character in serialized text nodes: `&`, `<`, `>` and
no-break space become entity references. -/
def escapeTextChar (c : Char) : List Char :=
  if c = '&' then "&amp;".toList
  else if c = '<' then "&lt;".toList
  else if c = '>' then "&gt;".toList
  else if c = ' ' then "&nbsp;".toList
  else [c]

/-- Escaping of a serialized text node. -/
def escapeText (s : String) : String :=
  String.mk (s.toList.foldr (fun c acc => escapeTextChar c ++ acc) [])

/-- Escaping of one character in a serialized attribute value: `&`, `"` and
no-break space become entity references (newlines stay literal, as in the
browser serializer). -/
def escapeAttrChar (c : Char) : List Char :=
  if c = '&' then "&amp;".toList
  else if c = '"' then "&quot;".toList
  else if c = ' ' then "&nbsp;".toList
  else [c]

/-- Escaping of a serialized attribute value. -/
def escapeAttrValue (s : String) : String :=
  String.mk (s.toList.foldr (fun c acc => escapeAttrChar c ++ acc) [])

/-- Serialization of an attribute list: a space before each entry, values
double-quoted and escaped. -/
def serializeAttrs (attrs : List (String × String)) : String :=
  match attrs with
  | [] => ""
  | (n, v) :: rest =>
    " " ++ n ++ "=" ++ "\"" ++ escapeAttrValue v ++ "\"" ++ serializeAttrs rest

mutual

/-- Serialization of one node, as the `innerHTML` getter would emit it: tag
names lowercased, attributes in order, text escaped.  (None of the elements
the module handles are void elements.) -/
def serializeNode : DNode → String
  | .text s => escapeText s
  | .elem t a cs =>
    "<" ++ lowerAscii t ++ serializeAttrs a ++ ">" ++ serializeForest cs ++
      "</" ++ lowerAscii t ++ ">"

/-- Serialization of a child list, in order; `innerHTML` of an element is the
serialization of its children. -/
def serializeForest : List DNode → String
  | [] => ""
  | c :: cs => serializeNode c ++ serializeForest cs

end

/-- `element.innerHTML` (getter). -/
def DNode.innerHTML (n : DNode) : String :=
  serializeForest n.children

/-! ### HTML fragment parsing (the `innerHTML` setter)

The source writes every per-line fragment into a table cell via
`dangerouslySetInnerHTML`; the browser then re-parses the string it earlier
serialized.  The fragments flowing through this module are sequences of
non-void elements and escaped text, and the parser below implements exactly
the HTML parsing behavior they exercise: tag names and attribute names are
case-normalized, attribute values may be double-quoted or unquoted, the five
entity references the serializer emits are decoded, an unmatched end tag is
dropped, and elements still open at the end of input are closed there. -/

/-- Decode the entity references the serializer emits; any other `&` stays
literal. -/
def decodeEntities : List Char → List Char
  | [] => []
  | '&' :: 'a' :: 'm' :: 'p' :: ';' :: r => '&' :: decodeEntities r
  | '&' :: 'l' :: 't' :: ';' :: r => '<' :: decodeEntities r
  | '&' :: 'g' :: 't' :: ';' :: r => '>' :: decodeEntities r
  | '&' :: 'q' :: 'u' :: 'o' :: 't' :: ';' :: r => '"' :: decodeEntities r
  | '&' :: 'n' :: 'b' :: 's' :: 'p' :: ';' :: r => ' ' :: decodeEntities r
  | c :: r => c :: decodeEntities r

/-- ASCII letter test. -/
def isAsciiLetter (c : Char) : Bool :=
  ('a' ≤ c && c ≤ 'z') || ('A' ≤ c && c ≤ 'Z')

/-- A character that may continue a tag name. -/
def isTagNameChar (c : Char) : Bool :=
  isAsciiLetter c || ('0' ≤ c && c ≤ '9') || c = '-'

/-- Read a tag name (uppercased, as `tagName` reports it). -/
def readTagName (cs : List Char) : String × List Char :=
  ((upperAscii (String.mk (cs.takeWhile isTagNameChar))),
    cs.dropWhile isTagNameChar)

/-- A character that may appear in an attribute name. -/
def isAttrNameChar (c : Char) : Bool :=
  !(isJsWhitespace c) && c != '=' && c != '>' && c != '/' && c != '"'

/-- Parse the attribute list of an open tag, consuming the closing `>`. -/
def parseAttrList (fuel : Nat) (cs : List Char) :
    List (String × String) × List Char :=
  match fuel with
  | 0 => ([], cs)
  | fuel + 1 =>
    match cs with
    | [] => ([], [])
    | '>' :: r => ([], r)
    | '/' :: r => parseAttrList fuel r
    | c :: r =>
      if isJsWhitespace c then parseAttrList fuel r
      else
        match (c :: r).span isAttrNameChar with
        | (nm, r1) =>
          match r1 with
          | '=' :: '"' :: r2 =>
            match r2.span (fun d => d != '"') with
            | (v, r3) =>
              match parseAttrList fuel (r3.drop 1) with
              | (rest, r4) =>
                ((lowerAscii (String.mk nm),
                  String.mk (decodeEntities v)) :: rest, r4)
          | '=' :: r2 =>
            match r2.span (fun d => !(isJsWhitespace d) && d != '>') with
            | (v, r3) =>
              match parseAttrList fuel r3 with
              | (rest, r4) =>
                ((lowerAscii (String.mk nm),
                  String.mk (decodeEntities v)) :: rest, r4)
          | _ =>
            match parseAttrList fuel r1 with
            | (rest, r4) => ((lowerAscii (String.mk nm), "") :: rest, r4)

/-- Consume the remainder of an end tag (everything through `>`). -/
def consumeTagEnd (cs : List Char) : List Char :=
  (cs.dropWhile (fun c => c != '>')).drop 1

/-- Parse the children of the element named `encl` (`none` at top level):
stop after the matching end tag or at end of input; drop end tags that match
no open element. -/
def parseNodesAux (fuel : Nat) (encl : Option String) (cs : List Char) :
    List DNode × List Char :=
  match fuel with
  | 0 => ([], cs)
  | fuel + 1 =>
    match cs with
    | [] => ([], [])
    | '<' :: '/' :: r =>
      match readTagName r with
      | (nm, r1) =>
        if encl = some nm then ([], consumeTagEnd r1)
        else parseNodesAux fuel encl (consumeTagEnd r1)
    | '<' :: c :: r =>
      if isAsciiLetter c then
        match readTagName (c :: r) with
        | (nm, r1) =>
          match parseAttrList fuel r1 with
          | (attrs, r2) =>
            match parseNodesAux fuel (some nm) r2 with
            | (kids, r3) =>
              match parseNodesAux fuel encl r3 with
              | (sibs, r4) => (DNode.elem nm attrs kids :: sibs, r4)
      else
        match parseNodesAux fuel encl (c :: r).tail with
        | (sibs, r4) => (DNode.text (String.mk (decodeEntities ['<', c])) :: sibs, r4)
    | c :: r =>
      match (c :: r).span (fun d => d != '<') with
      | (txt, r1) =>
        match parseNodesAux fuel encl r1 with
        | (sibs, r2) =>
          (DNode.text (String.mk (decodeEntities txt)) :: sibs, r2)

/-- The `innerHTML` setter: parse a markup string into a child list. -/
def parseHTMLFragment (s : String) : List DNode :=
  (parseNodesAux (s.toList.length + 1) none s.toList).1

example : parseHTMLFragment "ab" = [DNode.text "ab"] := by decide

example : parseHTMLFragment "<span class=\"gp\">$ </span>ls" =
    [DNode.elem "SPAN" [("class", "gp")] [DNode.text "$ "], DNode.text "ls"] := by
  decide

example : parseHTMLFragment "a &amp; b" = [DNode.text "a & b"] := by decide

/-! ### Content extraction (`getCodeblockContents`) -/

/-- `cloneNode()` (shallow): same tag and attributes, no children; a text
node clones to an empty text node for elements is not relevant, text clones
carry their data. -/
def cloneShallow : DNode → DNode
  | .elem t a _ => .elem t a []
  | .text s => .text s

/-- Assignment of `textContent` to a node: for an element, replace the
children with the single text node (no node for the empty string). -/
def withTextContent (n : DNode) (s : String) : DNode :=
  match n with
  | .elem t a _ => .elem t a (if s = "" then [] else [.text s])
  | .text _ => .text s

/-- The `lines.forEach((line, i) => ...)` loop of `getCodeblockContents` for
one span child: each non-empty line becomes a shallow clone of the span with
the line as its text, and a literal newline text node separates consecutive
lines (none after the last). -/
def spanLineNodes (childNode : DNode) : List String → List DNode
  | [] => []
  | [line] =>
    if line = "" then [] else [withTextContent (cloneShallow childNode) line]
  | line :: rest =>
    (if line = "" then [] else [withTextContent (cloneShallow childNode) line]) ++
      DNode.text "\n" :: spanLineNodes childNode rest

/-- The children appended to the result node by `getCodeblockContents`: walk
the code element's direct children; a `SPAN` element child is split on the
newlines of its `textContent` (the `textContent != null` guard is always true
for elements); any other element child is skipped; a non-element child is
cloned verbatim. -/
def getCodeblockContentsNodes (codeEl : DNode) : List DNode :=
  codeEl.children.foldl (fun acc childNode =>
    match childNode with
    | .elem tag _ _ =>
      if tag = "SPAN" then
        acc ++ spanLineNodes childNode (jsSplit '\n' (textContent childNode))
      else acc
    | .text s => acc ++ [.text s]) []

/-- Source `getCodeblockContents(codeEl)`: the `innerHTML` of a shallow clone
of the code element filled with the split children. -/
def getCodeblockContents (codeEl : DNode) : String :=
  serializeForest (getCodeblockContentsNodes codeEl)

example :
    getCodeblockContents (DNode.elem "CODE" []
      [DNode.elem "SPAN" [("class", "c")] [DNode.text "a\nb\nc"]]) =
    "<span class=\"c\">a</span>\n<span class=\"c\">b</span>\n<span class=\"c\">c</span>" := by
  decide

/-! ### Lemmas about splitting and serialization -/

theorem splitCharList_ne_nil (sep : Char) (cs : List Char) :
    splitCharList sep cs ≠ [] := by
  cases cs with
  | nil => simp [splitCharList]
  | cons c cs =>
    unfold splitCharList
    rcases h : splitCharList sep cs with _ | ⟨hd, tl⟩
    · simp
    · by_cases hc : c = sep <;> simp [hc]

theorem splitCharList_cons (sep c : Char) (cs : List Char) (hd : List Char)
    (tl : List (List Char)) (h : splitCharList sep cs = hd :: tl) :
    splitCharList sep (c :: cs) =
      if c = sep then [] :: hd :: tl else (c :: hd) :: tl := by
  rw [splitCharList, h]

theorem splitCharList_cons_sep (sep : Char) (ys : List Char) :
    splitCharList sep (sep :: ys) = [] :: splitCharList sep ys := by
  rcases h : splitCharList sep ys with _ | ⟨hd, tl⟩
  · exact absurd h (splitCharList_ne_nil sep ys)
  · rw [splitCharList_cons sep sep ys hd tl h, if_pos rfl]

theorem splitCharList_append_sepFree (sep : Char) :
    ∀ (xs ys : List Char), sep ∉ xs →
      splitCharList sep (xs ++ ys) = (splitCharList sep ys).modifyHead (xs ++ ·)
  | [], ys, _ => by
    rcases h : splitCharList sep ys with _ | ⟨hd, tl⟩
    · exact absurd h (splitCharList_ne_nil sep ys)
    · simp [h]
  | x :: xs, ys, hmem => by
    have hx : x ≠ sep := fun he => hmem (he ▸ List.mem_cons_self x xs)
    have ih := splitCharList_append_sepFree sep xs ys
      (fun hin => hmem (List.mem_cons_of_mem x hin))
    rcases h : splitCharList sep ys with _ | ⟨hd, tl⟩
    · exact absurd h (splitCharList_ne_nil sep ys)
    · rcases hxy : splitCharList sep (xs ++ ys) with _ | ⟨hd2, tl2⟩
      · exact absurd hxy (splitCharList_ne_nil sep (xs ++ ys))
      · rw [h, hxy, List.modifyHead_cons, List.cons.injEq] at ih
        rw [List.cons_append, splitCharList_cons sep x (xs ++ ys) hd2 tl2 hxy,
          if_neg hx, List.modifyHead_cons, ih.1, ih.2]
        simp

theorem splitCharList_sepFree (sep : Char) (xs : List Char) (h : sep ∉ xs) :
    splitCharList sep xs = [xs] := by
  have h2 := splitCharList_append_sepFree sep xs [] h
  rw [List.append_nil] at h2
  rw [h2]
  simp [splitCharList]

theorem not_mem_of_mem_splitCharList (sep : Char) :
    ∀ (cs : List Char) (seg : List Char), seg ∈ splitCharList sep cs → sep ∉ seg
  | [], seg, hm => by
    simp only [splitCharList, List.mem_singleton] at hm
    subst hm
    simp
  | c :: cs, seg, hm => by
    rcases h : splitCharList sep cs with _ | ⟨hd, tl⟩
    · exact absurd h (splitCharList_ne_nil sep cs)
    · rw [splitCharList_cons sep c cs hd tl h] at hm
      by_cases hc : c = sep
      · rw [if_pos hc] at hm
        rcases List.mem_cons.mp hm with rfl | hm
        · simp
        · exact not_mem_of_mem_splitCharList sep cs seg (by rw [h]; exact hm)
      · rw [if_neg hc] at hm
        rcases List.mem_cons.mp hm with rfl | hm
        · intro hin
          rcases List.mem_cons.mp hin with rfl | hin
          · exact hc rfl
          · exact not_mem_of_mem_splitCharList sep cs hd
              (by rw [h]; exact List.mem_cons_self hd tl) hin
        · exact not_mem_of_mem_splitCharList sep cs seg
            (by rw [h]; exact List.mem_cons_of_mem hd hm)

theorem toList_append (a b : String) : (a ++ b).toList = a.toList ++ b.toList :=
  String.data_append a b

theorem jsSplit_sepFree (sep : Char) (s : String) (h : sep ∉ s.toList) :
    jsSplit sep s = [s] := by
  unfold jsSplit
  rw [splitCharList_sepFree sep s.toList h]
  simp

theorem jsSplit_append_cons_sep (sep : Char) (a b : String) (h : sep ∉ a.toList)
    (hsep : (String.mk [sep]).toList = [sep]) :
    jsSplit sep (a ++ String.mk [sep] ++ b) = a :: jsSplit sep b := by
  unfold jsSplit
  rw [toList_append, toList_append, hsep, List.append_assoc]
  rw [splitCharList_append_sepFree sep a.toList ([sep] ++ b.toList) h]
  simp only [List.singleton_append, splitCharList_cons_sep]
  rcases hb : splitCharList sep b.toList with _ | ⟨hd, tl⟩
  · exact absurd hb (splitCharList_ne_nil sep b.toList)
  · simp

theorem mem_jsSplit_no_sep {sep : Char} {s seg : String}
    (h : seg ∈ jsSplit sep s) : sep ∉ seg.toList := by
  unfold jsSplit at h
  rw [List.mem_map] at h
  obtain ⟨l, hl, rfl⟩ := h
  exact not_mem_of_mem_splitCharList sep s.toList l hl

theorem foldr_escapeText_no_newline :
    ∀ (cs : List Char), '\n' ∉ cs →
      '\n' ∉ cs.foldr (fun c acc => escapeTextChar c ++ acc) []
  | [], _ => by simp
  | c :: cs, h => by
    have hc : c ≠ '\n' := fun he => h (he ▸ List.mem_cons_self c cs)
    have ih := foldr_escapeText_no_newline cs (fun hin => h (List.mem_cons_of_mem c hin))
    simp only [List.foldr_cons, List.mem_append]
    rintro (hm | hm)
    · revert hm
      unfold escapeTextChar
      split_ifs <;> first | decide | (simp only [List.mem_singleton]; exact fun he => hc he.symm)
    · exact ih hm

theorem escapeText_no_newline {s : String} (h : '\n' ∉ s.toList) :
    '\n' ∉ (escapeText s).toList :=
  foldr_escapeText_no_newline s.toList h

theorem no_newline_append {a b : String} (ha : '\n' ∉ a.toList)
    (hb : '\n' ∉ b.toList) : '\n' ∉ (a ++ b).toList := by
  rw [toList_append]
  intro h
  rcases List.mem_append.mp h with h | h
  · exact ha h
  · exact hb h

theorem serializeNode_span_eq (sattrs : List (String × String)) (seg : String) :
    serializeNode (DNode.elem "SPAN" sattrs [DNode.text seg]) =
      ("<" ++ lowerAscii "SPAN") ++ (serializeAttrs sattrs ++ (">" ++
        ((escapeText seg ++ "") ++ ("</" ++ (lowerAscii "SPAN" ++ ">"))))) := by
  simp only [serializeNode, serializeForest, String.append_assoc]

/-- The serialization of a span wrapping one newline-free text node is
newline-free, provided the serialized attribute list is newline-free. -/
theorem serialize_span_no_newline (sattrs : List (String × String)) (seg : String)
    (hattrs : '\n' ∉ (serializeAttrs sattrs).toList) (hseg : '\n' ∉ seg.toList) :
    '\n' ∉ (serializeNode (DNode.elem "SPAN" sattrs [DNode.text seg])).toList := by
  rw [serializeNode_span_eq]
  exact no_newline_append (by decide)
    (no_newline_append hattrs
      (no_newline_append (by decide)
        (no_newline_append
          (no_newline_append (escapeText_no_newline hseg) (by decide))
          (no_newline_append (by decide)
            (no_newline_append (by decide) (by decide))))))

theorem serializeForest_cons (c : DNode) (cs : List DNode) :
    serializeForest (c :: cs) = serializeNode c ++ serializeForest cs := by
  rfl

theorem jsSplit_sep_append (sep : Char) (b : String) :
    jsSplit sep (String.mk [sep] ++ b) = "" :: jsSplit sep b := by
  unfold jsSplit
  rw [toList_append]
  rw [show (String.mk [sep]).toList = [sep] from rfl, List.singleton_append,
    splitCharList_cons_sep]
  rfl

/-- The serialized split span child, split back on newlines: one line per
text segment; a non-empty segment becomes the serialization of the span
wrapping it, an empty segment becomes an empty line. -/
theorem jsSplit_serializeForest_spanLineNodes (sattrs : List (String × String))
    (spChildren : List DNode)
    (hattrs : '\n' ∉ (serializeAttrs sattrs).toList) :
    ∀ (segs : List String), segs ≠ [] →
      (∀ s ∈ segs, '\n' ∉ s.toList) →
      jsSplit '\n' (serializeForest
        (spanLineNodes (DNode.elem "SPAN" sattrs spChildren) segs)) =
      segs.map (fun seg =>
        if seg = "" then ""
        else serializeNode (DNode.elem "SPAN" sattrs [DNode.text seg]))
  | [], hne, _ => absurd rfl hne
  | [seg], _, hseg => by
    by_cases h1 : seg = ""
    · subst h1
      rw [show spanLineNodes (DNode.elem "SPAN" sattrs spChildren) [""] = []
          from by simp [spanLineNodes]]
      rw [show (jsSplit '\n' (serializeForest []) : List String) = [""] from by decide]
      simp
    · have h2 := hseg seg (List.mem_singleton.mpr rfl)
      have hnodes : spanLineNodes (DNode.elem "SPAN" sattrs spChildren) [seg] =
          [DNode.elem "SPAN" sattrs [DNode.text seg]] := by
        simp [spanLineNodes, withTextContent, cloneShallow, h1]
      rw [hnodes, serializeForest_cons, show serializeForest [] = "" from rfl,
        String.append_empty, List.map_singleton, if_neg h1]
      exact jsSplit_sepFree '\n' _ (serialize_span_no_newline sattrs seg hattrs h2)
  | seg :: seg2 :: rest, _, hseg => by
    have ih := jsSplit_serializeForest_spanLineNodes sattrs spChildren hattrs
      (seg2 :: rest) (by simp) (fun s hs => hseg s (List.mem_cons_of_mem seg hs))
    by_cases h1 : seg = ""
    · subst h1
      have hnodes : spanLineNodes (DNode.elem "SPAN" sattrs spChildren)
          ("" :: seg2 :: rest) =
          DNode.text "\n" ::
            spanLineNodes (DNode.elem "SPAN" sattrs spChildren) (seg2 :: rest) := by
        simp [spanLineNodes]
      rw [hnodes, serializeForest_cons,
        show serializeNode (DNode.text "\n") = String.mk ['\n'] from by decide,
        jsSplit_sep_append, ih]
      simp
    · have h2 := hseg seg (List.mem_cons_self _ _)
      have hnodes : spanLineNodes (DNode.elem "SPAN" sattrs spChildren)
          (seg :: seg2 :: rest) =
          DNode.elem "SPAN" sattrs [DNode.text seg] :: DNode.text "\n" ::
            spanLineNodes (DNode.elem "SPAN" sattrs spChildren) (seg2 :: rest) := by
        simp [spanLineNodes, withTextContent, cloneShallow, h1]
      rw [hnodes, serializeForest_cons, serializeForest_cons,
        show serializeNode (DNode.text "\n") = String.mk ['\n'] from by decide,
        ← String.append_assoc,
        jsSplit_append_cons_sep '\n' _ _
          (serialize_span_no_newline sattrs seg hattrs h2) (by decide),
        ih]
      simp [h1]

theorem jsSplit_ne_nil (sep : Char) (s : String) : jsSplit sep s ≠ [] := by
  unfold jsSplit
  intro h
  rcases hs : splitCharList sep s.toList with _ | ⟨hd, tl⟩
  · exact splitCharList_ne_nil sep s.toList hs
  · rw [hs] at h
    simp at h

/-- `spanLineNodes` in closed form: each non-empty segment is wrapped in a
shallow clone with the segment as its only text, each empty segment
contributes no node, and a standalone newline text node stands between
consecutive segments (none after the last). -/
theorem spanLineNodes_eq_intercalate (sp : DNode) :
    ∀ (segs : List String),
      spanLineNodes sp segs =
        List.intercalate [DNode.text "\n"]
          (segs.map (fun seg =>
            if seg = "" then []
            else [withTextContent (cloneShallow sp) seg]))
  | [] => rfl
  | [seg] => by
    rw [List.map_singleton, List.intercalate, List.intersperse_singleton,
      List.flatten_cons, List.flatten_nil, List.append_nil]
    by_cases h1 : seg = ""
    · simp [spanLineNodes, h1]
    · simp [spanLineNodes, h1]
  | seg :: seg2 :: rest => by
    have ih := spanLineNodes_eq_intercalate sp (seg2 :: rest)
    rw [List.intercalate, List.map_cons] at ih
    rw [List.map_cons, List.map_cons, List.intercalate,
      List.intersperse_cons_cons, List.flatten_cons, List.flatten_cons, ← ih]
    by_cases h1 : seg = "" <;> simp [spanLineNodes, h1]

/-! ### Claims C2 and C10 -/

/-- C2 counterexample: the claim quantifies over every inline-element direct
child, but the source splits only `SPAN` children.  A code element whose only
child is an `<em>` element with text `"a\nb\nc"` (an inline element) yields a
single empty line, not 3 lines wrapped in `<em>`. -/
theorem c2_counterexample :
    (jsSplit '\n' (getCodeblockContents (DNode.elem "CODE" []
      [DNode.elem "EM" [] [DNode.text "a\nb\nc"]]))).length ≠ 3 := by
  decide

/-- C2 (amended to span children): during content extraction, every `SPAN`
direct child is split on the newlines of its text content, each non-empty
segment wrapped in a shallow clone (same tag and attributes, the segment as
its only text) with a standalone newline text node between consecutive
segments and none after the last, and empty segments contribute nothing; a
code element whose only child is a single span with text `t` (no newline
hidden in the serialized attributes) splits into exactly one line per
segment of `t`, each nonempty segment's line the self-contained
serialization of the same span wrapping that segment — in particular text
`"a\nb\nc"` yields exactly 3 span-wrapped lines with no unmatched tags. -/
theorem c2_span_children_split :
    (∀ (sp : DNode) (segs : List String),
      spanLineNodes sp segs =
        List.intercalate [DNode.text "\n"]
          (segs.map (fun seg =>
            if seg = "" then []
            else [withTextContent (cloneShallow sp) seg])))
    ∧ (∀ (codeTag : String) (cattrs sattrs : List (String × String)) (t : String),
        '\n' ∉ (serializeAttrs sattrs).toList →
        jsSplit '\n' (getCodeblockContents (DNode.elem codeTag cattrs
          [DNode.elem "SPAN" sattrs [DNode.text t]])) =
        (jsSplit '\n' t).map
          (fun seg =>
            if seg = "" then ""
            else serializeNode (DNode.elem "SPAN" sattrs [DNode.text seg])))
    ∧ jsSplit '\n' (getCodeblockContents (DNode.elem "CODE" []
        [DNode.elem "SPAN" [("class", "c")] [DNode.text "a\nb\nc"]])) =
      ["<span class=\"c\">a</span>", "<span class=\"c\">b</span>",
        "<span class=\"c\">c</span>"] := by
  refine ⟨spanLineNodes_eq_intercalate, ?_, by decide⟩
  intro codeTag cattrs sattrs t hattrs
  have htc : textContent (DNode.elem "SPAN" sattrs [DNode.text t]) = t := by
    show t ++ "" = t
    exact String.append_empty t
  have hnodes : getCodeblockContentsNodes (DNode.elem "CODE" cattrs
      [DNode.elem "SPAN" sattrs [DNode.text t]]) =
      spanLineNodes (DNode.elem "SPAN" sattrs [DNode.text t])
        (jsSplit '\n' (textContent (DNode.elem "SPAN" sattrs [DNode.text t]))) := by
    rfl
  have hnodes2 : getCodeblockContentsNodes (DNode.elem codeTag cattrs
      [DNode.elem "SPAN" sattrs [DNode.text t]]) =
      spanLineNodes (DNode.elem "SPAN" sattrs [DNode.text t])
        (jsSplit '\n' (textContent (DNode.elem "SPAN" sattrs [DNode.text t]))) := by
    unfold getCodeblockContentsNodes
    rfl
  unfold getCodeblockContents
  rw [hnodes2, htc]
  exact jsSplit_serializeForest_spanLineNodes sattrs [DNode.text t] hattrs
    (jsSplit '\n' t) (jsSplit_ne_nil '\n' t)
    (fun s hs => mem_jsSplit_no_sep hs)

/-- Witness for C2 (amended) at a concrete input: the span with class `c` and
text `"a\nb\nc"` splits into exactly the three serialized span lines. -/
theorem c2_span_children_split_witness :
    jsSplit '\n' (getCodeblockContents (DNode.elem "CODE" []
      [DNode.elem "SPAN" [("class", "c")] [DNode.text "a\nb\nc"]])) =
    (jsSplit '\n' "a\nb\nc").map
      (fun seg =>
        if seg = "" then ""
        else serializeNode (DNode.elem "SPAN" [("class", "c")] [DNode.text seg])) :=
  c2_span_children_split.2.1 "CODE" [] [("class", "c")] "a\nb\nc" (by decide)

/-- C10: during content extraction, an element direct child that is not a
`SPAN` (for example `<em>` or `<b>`) contributes nothing — removing it from
the child list does not change the extracted content — while non-element
children are cloned verbatim.  Concretely, an `<em>` only child extracts to
the empty string, and a `<b>` between two text children disappears while the
text (including its newlines) is kept. -/
theorem c10_non_span_children_dropped :
    (∀ (codeTag : String) (cattrs : List (String × String))
       (before after : List DNode) (tag : String)
       (attrs : List (String × String)) (kids : List DNode), tag ≠ "SPAN" →
       getCodeblockContentsNodes (DNode.elem codeTag cattrs
         (before ++ DNode.elem tag attrs kids :: after)) =
       getCodeblockContentsNodes (DNode.elem codeTag cattrs (before ++ after)))
    ∧ getCodeblockContents (DNode.elem "CODE" []
        [DNode.elem "EM" [] [DNode.text "a\nb\nc"]]) = ""
    ∧ getCodeblockContents (DNode.elem "CODE" []
        [DNode.text "x\n", DNode.elem "B" [("class", "q")] [DNode.text "bold"],
          DNode.text "y"]) = "x\ny" := by
  refine ⟨?_, by decide, by decide⟩
  intro codeTag cattrs before after tag attrs kids htag
  unfold getCodeblockContentsNodes
  simp only [DNode.children, List.foldl_append, List.foldl_cons]
  congr 1
  simp [htag]

/-- Witness for C10 at a concrete input: removing a `<b>` child (not a span)
leaves the extracted child list unchanged. -/
theorem c10_non_span_children_dropped_witness :
    getCodeblockContentsNodes (DNode.elem "CODE" []
      ([DNode.text "x"] ++ DNode.elem "B" [] [DNode.text "bold"] :: [DNode.text "y"])) =
    getCodeblockContentsNodes (DNode.elem "CODE" [] ([DNode.text "x"] ++ [DNode.text "y"])) :=
  c10_non_span_children_dropped.1 "CODE" [] [DNode.text "x"] [DNode.text "y"]
    "B" [] [DNode.text "bold"] (by decide)

/-! ### The selection controller (`selectLines`) -/

/-- A browser `Range` as `selectLines` builds one: a start node with a start
offset and an end node with an end offset.  Nodes are identified by value in
the immutable tree model. -/
structure SelRange where
  startNode : DNode
  startOffset : Nat
  endNode : DNode
  endOffset : Nat
  deriving DecidableEq

/-- `document.getElementById`: the first element in document order carrying
the id.  The whole modeled document is searched. -/
def getElementById? (doc : DNode) (id : String) : Option DNode :=
  query? (Sel.byId id) doc

/-- Source `selectLines(codeblockId, startLine_, endLine_)`: swap the two
lines when the range is inverted; resolve the start and end content cells
(`<codeblockId>-LC<line>`) by id; if either is missing, log an error and
return with the existing selection untouched; otherwise remove all existing
ranges and apply the single range from the start of the start cell to the
full extent (`childNodes.length`) of the end cell. -/
def selectLines (doc : DNode) (codeblockId : String) (startLine_ endLine_ : Nat)
    (sel : Option SelRange) : Option SelRange :=
  let startLine := if startLine_ > endLine_ then endLine_ else startLine_
  let endLine := if startLine_ > endLine_ then startLine_ else endLine_
  match getElementById? doc (codeblockId ++ "-LC" ++ toString startLine),
      getElementById? doc (codeblockId ++ "-LC" ++ toString endLine) with
  | some startNode, some endNode =>
    some { startNode := startNode, startOffset := 0,
           endNode := endNode, endOffset := endNode.children.length }
  | _, _ => sel

/-! ### Claims C6 and C7 -/

/-- C6: `selectLines` normalizes the drag direction — swapping the two line
arguments yields the same resulting selection, and whenever both content
cells resolve, the applied range runs from the start (offset 0) of the lower
line's cell to the full extent of the higher line's cell, regardless of the
prior selection. -/
theorem c6_selectLines_direction_normalized :
    (∀ (doc : DNode) (codeblockId : String) (a b : Nat) (sel : Option SelRange),
      selectLines doc codeblockId a b sel = selectLines doc codeblockId b a sel)
    ∧ (∀ (doc : DNode) (codeblockId : String) (a b : Nat) (sel : Option SelRange)
        (stN enN : DNode),
        getElementById? doc (codeblockId ++ "-LC" ++ toString (min a b)) = some stN →
        getElementById? doc (codeblockId ++ "-LC" ++ toString (max a b)) = some enN →
        selectLines doc codeblockId a b sel =
          some ⟨stN, 0, enN, enN.children.length⟩) := by
  constructor
  · intro doc id a b sel
    by_cases h : a > b
    · have h2 : ¬ b > a := by omega
      simp only [selectLines, if_pos h, if_neg h2]
    · by_cases h3 : b > a
      · simp only [selectLines, if_neg h, if_pos h3]
      · have : a = b := by omega
        subst this
        rfl
  · intro doc id a b sel stN enN hst hen
    have hmin : (if a > b then b else a) = min a b := by
      by_cases h : a > b
      · rw [if_pos h]; omega
      · rw [if_neg h]; omega
    have hmax : (if a > b then a else b) = max a b := by
      by_cases h : a > b
      · rw [if_pos h]; omega
      · rw [if_neg h]; omega
    simp only [selectLines]
    rw [hmin, hmax, hst, hen]

/-- Witness for C6 at a concrete input: in a document holding the two content
cells `cb-LC1` and `cb-LC2`, selecting from line 2 to line 1 applies the
range from the start of cell 1 to the full extent of cell 2. -/
theorem c6_selectLines_direction_normalized_witness :
    selectLines (DNode.elem "MAIN" []
        [DNode.elem "TD" [("id", "cb-LC1")] [],
         DNode.elem "TD" [("id", "cb-LC2")] [DNode.text "x"]])
      "cb" 2 1 none =
    some ⟨DNode.elem "TD" [("id", "cb-LC1")] [], 0,
      DNode.elem "TD" [("id", "cb-LC2")] [DNode.text "x"],
      (DNode.elem "TD" [("id", "cb-LC2")] [DNode.text "x"]).children.length⟩ :=
  c6_selectLines_direction_normalized.2
    (DNode.elem "MAIN" []
      [DNode.elem "TD" [("id", "cb-LC1")] [],
       DNode.elem "TD" [("id", "cb-LC2")] [DNode.text "x"]])
    "cb" 2 1 none _ _ (by decide) (by decide)

/-- C7: `selectLines` fails atomically — when either the start or the end
content cell cannot be resolved by id, the operation returns with the
pre-existing selection unchanged; no partial range is applied. -/
theorem c7_selectLines_atomic_failure :
    ∀ (doc : DNode) (codeblockId : String) (a b : Nat) (sel : Option SelRange),
      (getElementById? doc (codeblockId ++ "-LC" ++ toString (min a b)) = none ∨
       getElementById? doc (codeblockId ++ "-LC" ++ toString (max a b)) = none) →
      selectLines doc codeblockId a b sel = sel := by
  intro doc id a b sel hmiss
  have hmin : (if a > b then b else a) = min a b := by
    by_cases h : a > b
    · rw [if_pos h]; omega
    · rw [if_neg h]; omega
  have hmax : (if a > b then a else b) = max a b := by
    by_cases h : a > b
    · rw [if_pos h]; omega
    · rw [if_neg h]; omega
  simp only [selectLines]
  rw [hmin, hmax]
  rcases hmiss with h | h
  · rw [h]
  · rw [h]
    rcases getElementById? doc (id ++ "-LC" ++ toString (min a b)) with _ | n <;> rfl

/-- Witness for C7 at a concrete input: in a document with no content cells,
a selection request leaves the pre-existing selection value untouched. -/
theorem c7_selectLines_atomic_failure_witness :
    selectLines (DNode.elem "MAIN" [] [DNode.text "no cells"]) "cb" 1 2
      (some ⟨DNode.text "old", 0, DNode.text "old", 0⟩) =
    some ⟨DNode.text "old", 0, DNode.text "old", 0⟩ :=
  c7_selectLines_atomic_failure (DNode.elem "MAIN" [] [DNode.text "no cells"])
    "cb" 1 2 (some ⟨DNode.text "old", 0, DNode.text "old", 0⟩)
    (Or.inl (by decide))

/-! ### The line renderer (`createCodeBlockLine`) and the copy controller -/

/-- Class constant `CODEBLOCK_LINE_CLASS` of the source. -/
def CODEBLOCK_LINE_CLASS : String := "primer-spec-code-block-line-code"

/-- Class constant `CODEBLOCK_PROCESSED_CLASS` of the source. -/
def CODEBLOCK_PROCESSED_CLASS : String := "primer-spec-code-block-processed"

/-- Class constant `CODEBLOCK_TITLE_CLASS` of the source. -/
def CODEBLOCK_TITLE_CLASS : String := "primer-spec-code-block-title"

/-- The reserved console language identifier `LANGUAGE_CONSOLE`. -/
def LANGUAGE_CONSOLE : String := "console"

/-- Join nonempty class names with single spaces. -/
def joinClasses : List String → String
  | [] => ""
  | [c] => c
  | c :: rest => c ++ " " ++ joinClasses rest

/-- The `clsx(...)` helper of the source: skip falsy entries (absent branches
and empty strings) and join the rest with spaces. -/
def clsx (parts : List (Option String)) : String :=
  joinClasses ((parts.filterMap id).filter (fun s => s ≠ ""))

/-- Replace the children of an element (`innerHTML = ...` followed by
`appendChild` calls). -/
def DNode.withChildren (n : DNode) (cs : List DNode) : DNode :=
  match n with
  | .elem t a _ => .elem t a cs
  | .text s => .text s

/-- The console special case of `createCodeBlockLine`: when the first child
of the content cell is a `SPAN` with the prompt class `gp`, (1) remove the
cell id, (2) collect the leading element children of class `gp`
(Generic::Prompt) or `w` (Whitespace) — stopping at the first child that is
not such an element — and (3) wrap them in a selection-excluded span, with
the remaining children wrapped in a new span carrying the content cell id. -/
def consoleRestructure (lcId : String) (codeLine : DNode) : DNode :=
  match codeLine.firstChild? with
  | some firstChild =>
    if firstChild.tag = "SPAN" && firstChild.hasClass "gp" then
      (codeLine.setAttrN "id" "").withChildren
        [DNode.elem "SPAN" [("class", "primer-spec-code-block-non-selectable")]
          (codeLine.children.takeWhile (fun child =>
            child.isElem && (child.hasClass "gp" || child.hasClass "w"))),
         DNode.elem "SPAN" [("id", lcId)]
          (codeLine.children.drop
            ((codeLine.children.takeWhile (fun child =>
              child.isElem && (child.hasClass "gp" || child.hasClass "w"))).length))]
    else codeLine
  | none => codeLine

/-- Source `createCodeBlockLine(options)` (arguments in the order of the
options object): the row `<tr id=LR>` holding the line number cell
`<td id=L>` and the content cell `<td id=LC>`; the line markup string the
source assigns through `dangerouslySetInnerHTML` is parsed into the cell
(`parseHTMLFragment` models that browser parse).  For the console language
the content cell found through `querySelector(CODEBLOCK_LINE_CLASS)` — which
is that same `<td>` — is then restructured by `consoleRestructure`. -/
def createCodeBlockLine (codeblockId : String) (language : Option String)
    (line : String) (lineNumber : Nat) (shouldHighlight : Bool)
    (showLineNumbers : Bool) : DNode :=
  DNode.elem "TR" [("id", codeblockId ++ "-LR" ++ toString lineNumber)]
    [DNode.elem "TD"
      [("id", codeblockId ++ "-L" ++ toString lineNumber),
       ("class", clsx [some "primer-spec-code-block-line-number",
          if showLineNumbers then some "primer-spec-code-block-line-numbers-shown"
          else none]),
       ("data-line-number", toString lineNumber)] [],
     (if language = some LANGUAGE_CONSOLE then
        consoleRestructure (codeblockId ++ "-LC" ++ toString lineNumber)
      else id)
      (DNode.elem "TD"
        [("id", codeblockId ++ "-LC" ++ toString lineNumber),
         ("class", clsx [some CODEBLOCK_LINE_CLASS,
            if shouldHighlight then some "primer-spec-code-block-highlighted"
            else none])]
        (parseHTMLFragment line))]

/-- `DEFAULT_COPY_LINES_MAP_FN`: the rendered text of the whole line cell. -/
def defaultCopyLinesMapFn (line : DNode) (_lineNumber : Nat)
    (_codeblock : DNode) : Option String :=
  some line.innerText

/-- `CONSOLE_COPY_LINES_MAP_FN`: (1) skip console output lines — any line
with a `.go` (Rouge Generic::Output) descendant contributes nothing; (2)
otherwise contribute the visible text of the selection wrapper
`#<codeblock.id>-LC<lineNumber>`, or nothing when that wrapper is absent
(`lineText?.innerText` is undefined then). -/
def consoleCopyLinesMapFn (line : DNode) (lineNumber : Nat)
    (codeblock : DNode) : Option String :=
  match query? (Sel.byClass "go") line with
  | some _ => none
  | none =>
    match query? (Sel.byId (codeblock.idStr ++ "-LC" ++ toString lineNumber)) line with
    | some lineText => some lineText.innerText
    | none => none

/-- Join contributed lines with newlines. -/
def joinTextLines : List String → String
  | [] => ""
  | [l] => l
  | l :: rest => l ++ "\n" ++ joinTextLines rest

/-- Source `copyLines(codeblock, mapFn)` up to the clipboard write: gather
the `.primer-spec-code-block-line-code` cells in document order, map each
through the extraction function with its 1-based index, filter out falsy
results (null, undefined and the empty string — `filter(Boolean)`), and join
with newlines.  The returned string is what
`navigator.clipboard.writeText` receives. -/
def copyLinesText (codeblock : DNode)
    (mapFn : DNode → Nat → DNode → Option String) : String :=
  joinTextLines
    ((List.mapIdx (fun i line => mapFn line (i + 1) codeblock)
        (queryAll (Sel.byClass CODEBLOCK_LINE_CLASS) codeblock)).filterMap id
      |>.filter (fun s => s ≠ ""))

/-! ### Block assembly (`createEnhancedCodeBlock`) -/

/-- Source `genCodeBlockHeader(title, anchorId)`: no header without a title;
otherwise the Box header holding the linkable title span (the anchor id
attribute only when present). -/
def genCodeBlockHeader (title anchorId : Option String) : Option DNode :=
  match title with
  | none => none
  | some t =>
    some (DNode.elem "DIV"
      [("class", "Box-header py-2 pr-2 d-flex flex-shrink-0 flex-md-row flex-items-center primer-spec-code-block-header")]
      [DNode.elem "SPAN"
        ([("class", clsx [some "flex-auto", some CODEBLOCK_TITLE_CLASS])] ++
          (match anchorId with
           | some a => [("data-anchor-id", a)]
           | none => []))
        [DNode.text t]])

/-- Source `genCopyButton(codeblockId, language)`: the floating container
with the copy button (the click handler itself is behavior, modeled by
`copyLinesText`). -/
def genCopyButton (codeblockId : String) (language : Option String) : DNode :=
  DNode.elem "DIV"
    [("class", "primer-spec-zeroclipboard-container position-absolute top-0 right-0")]
    [DNode.elem "BUTTON"
      [("type", "button"),
       ("class", "btn-octicon no-print m-2 p-2 tooltipped tooltipped-no-delay tooltipped-n"),
       ("tabindex", "0"),
       ("aria-label", if language = some LANGUAGE_CONSOLE then "Copy all commands" else "Copy")]
      [DNode.elem "I" [("class", "far fa-copy")] []]]

/-- Source `createEnhancedCodeBlock(options)`, arguments in the order of the
options object: `codeblockNumericId`, `rawContent`, `language`,
`rawHighlightRanges`, `title`, `anchorId`, `showLineNumbers`.  Split the raw
content on newlines; if there are no lines at all, warn and return null (in
JavaScript `split` never returns an empty array, so this branch is
unreachable — see claim C9); drop a trailing line that is empty or the
`</span>` artifact; parse the highlight ranges against the line count; and
assemble the enhanced block: header (when titled), the table of rendered
rows, and the copy button when there is more than one line. -/
def createEnhancedCodeBlock (codeblockNumericId : Nat) (rawContent : String)
    (language : Option String) (rawHighlightRanges : Option String)
    (title : Option String) (anchorId : Option String)
    (showLineNumbers : Bool) : Option DNode :=
  if (jsSplit '\n' rawContent).length = 0 then none
  else
    let lines0 := jsSplit '\n' rawContent
    let lines :=
      if lines0.getLast? = some "" ∨ lines0.getLast? = some "</span>" then
        lines0.dropLast
      else lines0
    let highlightRanges := parseCodeHighlightRanges rawHighlightRanges (lines.length : ℚ)
    let codeblockId := "primer-spec-code-block-" ++ toString codeblockNumericId
    let header := genCodeBlockHeader title anchorId
    some (DNode.elem "DIV" [("id", codeblockId), ("class", "Box mt-3 text-mono")]
      ((match header with
        | some h => [h]
        | none => []) ++
       [DNode.elem "DIV"
         [("class", clsx [some "Box-body", some "p-0",
            some "primer-spec-code-block-body",
            if header.isSome then some "primer-spec-code-block-header-present"
            else none])]
         ([DNode.elem "TABLE" [("class", "highlight")]
            [DNode.elem "TBODY" []
              (List.mapIdx (fun i line =>
                createCodeBlockLine codeblockId language line (i + 1)
                  (decide (((i + 1 : Nat) : ℚ) ∈ highlightRanges))
                  showLineNumbers) lines)]] ++
          if lines.length > 1 then [genCopyButton codeblockId language]
          else [])]))

/-! ### Per-block configuration helpers -/

/-- The codeblock variants.  `CodeblockVariant` itself lives in a module not
part of the sources here; modelled from the spec: the recognized values are
`legacy`, `no-line-numbers`, and the enhanced default (`enhanced`). -/
inductive CodeblockVariant where
  | legacy
  | noLineNumbers
  | enhanced
  deriving DecidableEq

/-- Modelled from the spec: the attribute strings of the recognized variants
(missing module `types.ts`). -/
def codeblockVariantOfString? (s : String) : Option CodeblockVariant :=
  if s = "legacy" then some .legacy
  else if s = "no-line-numbers" then some .noLineNumbers
  else if s = "enhanced" then some .enhanced
  else none

/-- Modelled from the spec: the global default variant
(`Config.DEFAULT_CODEBLOCK_VARIANT`, from the missing module `Config.ts`);
spec §4.6 enhances by default, so the default is the enhanced variant. -/
def DEFAULT_CODEBLOCK_VARIANT : CodeblockVariant := .enhanced

/-- Source `getCodeblockVariant(codeblock)`: the lowercased `data-variant`
attribute when it is a recognized variant, the global default otherwise. -/
def getCodeblockVariant (codeblock : DNode) : CodeblockVariant :=
  match codeblock.attr? "data-variant" with
  | some raw =>
    match codeblockVariantOfString? (lowerAscii raw) with
    | some v => v
    | none => DEFAULT_CODEBLOCK_VARIANT
  | none => DEFAULT_CODEBLOCK_VARIANT

/-- Source `getCodeBlockLanguage(codeblockSrc)`: the first class of the form
`language-<id>`, with the marker removed; `null` when there is none. -/
def getCodeBlockLanguage (codeblockSrc : DNode) : Option String :=
  match (codeblockSrc.classList.filter
      (fun c => c.toList.take 9 = "language-".toList)).head? with
  | some className => some (String.mk (className.toList.drop 9))
  | none => none

/-- Source `shouldRetainLegacyCodeBlock(codeblock)`: keep hands off Mermaid
blocks, and retain blocks explicitly marked with the legacy variant. -/
def shouldRetainLegacyCodeBlock (codeblock : DNode) : Bool :=
  (query? (Sel.byClass "language-mermaid") codeblock).isSome ||
    getCodeblockVariant codeblock = CodeblockVariant.legacy

/-- Modelled from the spec: the external slug-generation collaborator
(§6, `@sindresorhus/slugify`) mapping a title to a URL-safe fragment; the
model lowercases and hyphenates, which none of the claims depend on. -/
def slugify (s : String) : String :=
  String.mk ((s.toList.map (fun c =>
    if isAsciiLetter c || ('0' ≤ c && c ≤ '9') then lowerAsciiChar c else '-')))

/-- Source `createCodeBlockAnchorId(codeblockNumericId, title)`. -/
def createCodeBlockAnchorId (codeblockNumericId : Nat) (title : String) : String :=
  slugify title ++ "-" ++ toString codeblockNumericId

/-! ### Claim C4 -/

/-- C4: copying a console block excludes output lines and strips prompts:
any line cell with an output-marker descendant (Rouge class `go`) contributes
nothing; and end to end, the console block rendered from the three lines
`$ ls`, `file.txt` (marked output) and `$ pwd` — with the prompts as Rouge
`gp` spans — copies exactly `"ls\npwd"`: the non-contributing line is
filtered out and the two command texts, prompts excluded, are joined with a
newline. -/
theorem c4_console_copy_excludes_prompts_and_output :
    (∀ (line : DNode) (lineNumber : Nat) (codeblock : DNode),
      (query? (Sel.byClass "go") line).isSome →
      consoleCopyLinesMapFn line lineNumber codeblock = none)
    ∧ (createEnhancedCodeBlock 0
        "<span class=\"gp\">$ </span>ls\n<span class=\"go\">file.txt</span>\n<span class=\"gp\">$ </span>pwd"
        (some "console") none none none true).map
        (fun codeblock => copyLinesText codeblock consoleCopyLinesMapFn) =
      some "ls\npwd" := by
  constructor
  · intro line n cb h
    unfold consoleCopyLinesMapFn
    rcases hq : query? (Sel.byClass "go") line with _ | x
    · rw [hq] at h
      simp at h
    · rfl
  · decide

/-- Witness for C4 at a concrete input: a line holding a `go` output span
contributes nothing to the copied text. -/
theorem c4_console_copy_excludes_prompts_and_output_witness :
    consoleCopyLinesMapFn
      (DNode.elem "TD" [] [DNode.elem "SPAN" [("class", "go")] [DNode.text "file.txt"]])
      2 (DNode.text "") = none :=
  c4_console_copy_excludes_prompts_and_output.1
    (DNode.elem "TD" [] [DNode.elem "SPAN" [("class", "go")] [DNode.text "file.txt"]])
    2 (DNode.text "") (by decide)

/-! ### Claim C9 -/

/-- C9 (the code against the claim): in JavaScript `String.split` never
returns an empty array, so the zero-lines skip (`lines.length === 0`, the
warn-and-return-null branch) is unreachable: `createEnhancedCodeBlock`
returns a block for every input.  For empty raw content the trailing empty
line is popped and an enhanced block with an empty row table is produced and
installed, rather than the block being skipped with a diagnostic. -/
theorem c9_empty_content_block_not_skipped :
    (∀ (codeblockNumericId : Nat) (rawContent : String) (language : Option String)
       (rawHighlightRanges : Option String) (title anchorId : Option String)
       (showLineNumbers : Bool),
      (createEnhancedCodeBlock codeblockNumericId rawContent language
        rawHighlightRanges title anchorId showLineNumbers).isSome)
    ∧ (createEnhancedCodeBlock 0 "" none none none none true).map
        (fun block => (queryAll (Sel.byTag "TR") block).length) = some 0 := by
  constructor
  · intro id raw lang hr t a s
    unfold createEnhancedCodeBlock
    have h : ¬ (jsSplit '\n' raw).length = 0 := by
      intro h0
      exact jsSplit_ne_nil '\n' raw (List.length_eq_zero.mp h0)
    rw [if_neg h]
    simp
  · decide

/-! ### Paths, path lookup and path update

The orchestrator mutates the document while iterating over a static node
list.  Nodes are addressed by their path (child indices) in the tree the
list was computed from; `replaceChild` detaches the replaced subtree, and a
node of the static list that sat inside a replaced subtree is afterwards
found — and mutated — inside that detached subtree, exactly as the browser
keeps operating on the detached node objects. -/

mutual

/-- The node at a path of child indices (`none` when out of range). -/
def getNodeAt? : DNode → List Nat → Option DNode
  | n, [] => some n
  | .elem _ _ cs, i :: p => getNodeAtList? cs i p
  | .text _, _ :: _ => none

/-- The node under the i-th element of a child list. -/
def getNodeAtList? : List DNode → Nat → List Nat → Option DNode
  | [], _, _ => none
  | c :: _, 0, p => getNodeAt? c p
  | _ :: cs, i + 1, p => getNodeAtList? cs i p

end

mutual

/-- Apply a function at a path (identity when the path is out of range). -/
def modifyAt : DNode → List Nat → (DNode → DNode) → DNode
  | n, [], f => f n
  | .elem t a cs, i :: p, f => .elem t a (modifyAtList cs i p f)
  | .text s, _ :: _, _ => .text s

/-- Apply a function under the i-th element of a child list. -/
def modifyAtList : List DNode → Nat → List Nat → (DNode → DNode) → List DNode
  | [], _, _, _ => []
  | c :: cs, 0, p, f => modifyAt c p f :: cs
  | c :: cs, i + 1, p, f => c :: modifyAtList cs i p f

end

mutual

/-- The paths of all descendants of a node (excluding the node itself), in
document (pre-)order. -/
def descendantPaths : DNode → List (List Nat)
  | .elem _ _ cs => descendantPathsList 0 cs
  | .text _ => []

/-- The paths of all nodes of a child list starting at index i, each followed
by its descendants. -/
def descendantPathsList : Nat → List DNode → List (List Nat)
  | _, [] => []
  | i, c :: cs =>
    [i] :: ((descendantPaths c).map (fun p => i :: p) ++
      descendantPathsList (i + 1) cs)

end

/-- `querySelectorAll` as a path list (document order). -/
def queryAllPaths (s : Sel) (root : DNode) : List (List Nat) :=
  (descendantPaths root).filter (fun p =>
    match getNodeAt? root p with
    | some n => matchesSel s n
    | none => false)

/-- `closest(sel)` from the node at `p`: does any node on the path from the
root down to and including `p` match?  (The node itself and all its modeled
ancestors.) -/
def closestExists (root : DNode) (p : List Nat) (s : Sel) : Bool :=
  (List.range (p.length + 1)).any (fun k =>
    match getNodeAt? root (p.take k) with
    | some n => matchesSel s n
    | none => false)

/-! ### The block orchestrator (`enhanceBlocks`, `useEnhancedCodeBlocks`) -/

/-- The mutable state of one enhancement run: the live document, the
detached subtrees keyed by the original path of the node that was replaced
(the browser keeps those node objects alive and the static node list still
references them), the shared id counter `nextCodeBlockId`, and — as
verification instrumentation with no effect on the DOM — the trace of ids
drawn from the counter. -/
structure EnhState where
  doc : DNode
  detached : List (List Nat × DNode)
  nextId : Nat
  idTrace : List Nat

/-- The most recently detached subtree containing original path `p`: the
entry with the longest key that is a prefix of `p`. -/
def deepestDetachedEntry? (detached : List (List Nat × DNode)) (p : List Nat) :
    Option (List Nat × DNode) :=
  detached.foldl (fun best entry =>
    if entry.1.isPrefixOf p then
      match best with
      | none => some entry
      | some b => if b.1.length ≤ entry.1.length then some entry else some b
    else best) none

/-- The node currently standing at original path `p`: inside the deepest
detached subtree containing `p` when there is one, else in the live
document. -/
def resolveNode? (st : EnhState) (p : List Nat) : Option DNode :=
  match deepestDetachedEntry? st.detached p with
  | some (q, t) => getNodeAt? t (p.drop q.length)
  | none => getNodeAt? st.doc p

/-- Store an updated subtree for a detached entry. -/
def updateDetached (detached : List (List Nat × DNode)) (q : List Nat)
    (t : DNode) : List (List Nat × DNode) :=
  detached.map (fun e => if e.1 = q then (q, t) else e)

/-- Mutate the node at original path `p`, wherever it currently lives. -/
def modifyResolved (st : EnhState) (p : List Nat) (f : DNode → DNode) : EnhState :=
  match deepestDetachedEntry? st.detached p with
  | some (q, t) =>
    { st with detached := updateDetached st.detached q (modifyAt t (p.drop q.length) f) }
  | none => { st with doc := modifyAt st.doc p f }

/-- `parent.replaceChild(newNode, node)` for the node at original path `p`:
the new node takes the old position, and the old subtree is detached (kept
addressable under its original path). -/
def replaceNodeAt (st : EnhState) (p : List Nat) (newNode : DNode) : EnhState :=
  match resolveNode? st p with
  | none => st
  | some oldNode =>
    let st2 := modifyResolved st p (fun _ => newNode)
    { st2 with detached := st2.detached ++ [(p, oldNode)] }

/-- Whether the node at original path `p` has been replaced directly: its
`parentElement` is then null (`replaceChild` cleared it). -/
def hasNullParent (st : EnhState) (p : List Nat) : Bool :=
  st.detached.any (fun e => e.1 = p)

/-- `nextCodeBlockId++`: draw the next id from the shared counter (the trace
records the drawn id; it has no DOM effect). -/
def drawId (st : EnhState) : EnhState :=
  { st with nextId := st.nextId + 1, idTrace := st.idTrace ++ [st.nextId] }

/-- `attrValue || null`: the empty string is falsy, as in
`codeblock.dataset[...] || null`. -/
def jsTruthyAttr (v : Option String) : Option String :=
  match v with
  | some "" => none
  | some s => some s
  | none => none

/-- The tail of the `forEach` body of `enhanceBlocks` once the code element
is in hand (`st1` is the state after the id draw, `codeblockNumericId` the id
drawn): read title, anchor id, language, highlight attribute and variant from
the candidate, build the enhanced block, and — unless it is null — replace
the original container with the wrapper holding it. -/
def buildAndReplace (st1 : EnhState) (codeblockNumericId : Nat) (p : List Nat)
    (codeblock codeblockContentsEl : DNode) : EnhState :=
  match createEnhancedCodeBlock codeblockNumericId
      (getCodeblockContents codeblockContentsEl)
      (getCodeBlockLanguage codeblock)
      (jsTruthyAttr (codeblock.attr? "data-highlight"))
      (jsTruthyAttr (codeblock.attr? "data-title"))
      ((jsTruthyAttr (codeblock.attr? "data-title")).map
        (createCodeBlockAnchorId codeblockNumericId))
      (decide (getCodeblockVariant codeblock ≠ CodeblockVariant.noLineNumbers)) with
  | none => st1
  | some enhancedCodeBlock =>
    replaceNodeAt st1 p
      (DNode.elem "DIV"
        ((match (jsTruthyAttr (codeblock.attr? "data-title")).map
            (createCodeBlockAnchorId codeblockNumericId) with
          | some a => [("id", a)]
          | none => []) ++
         [("class", "primer-spec-code-block")])
        [enhancedCodeBlock])

/-- The `forEach` body of `enhanceBlocks` for one candidate (addressed by its
path in the pass-start document).  In source order: retained-legacy blocks
are only marked processed; every other candidate draws the next id; then the
missing-parent and malformed-structure returns (the id stays drawn);
otherwise the block is built and installed. -/
def processCodeblock (getCodeEl : DNode → Option DNode) (st : EnhState)
    (p : List Nat) : EnhState :=
  match resolveNode? st p with
  | none => st
  | some codeblock =>
    if shouldRetainLegacyCodeBlock codeblock then
      modifyResolved st p (fun n => n.addClass CODEBLOCK_PROCESSED_CLASS)
    else if hasNullParent st p then
      drawId st
    else
      match getCodeEl codeblock with
      | none => drawId st
      | some codeblockContentsEl =>
        buildAndReplace (drawId st) st.nextId p codeblock codeblockContentsEl

/-- Source `enhanceBlocks(codeblocks, getCodeEl, startId)`: take the static
`querySelectorAll` snapshot, filter out blocks containing or sitting inside
a processed marker (the filter runs to completion before any block is
processed), and process the remaining candidates in document order.
`new AnchorJS().add(...)` (external collaborator, spec §6) only decorates
title spans and is modeled as a no-op on the document. -/
def enhanceBlocks (sel : Sel) (getCodeEl : DNode → Option DNode)
    (startId : Nat) (doc : DNode) (trace : List Nat) : EnhState :=
  ((queryAllPaths sel doc).filter (fun p =>
    match getNodeAt? doc p with
    | some n =>
      !(query? (Sel.byClass CODEBLOCK_PROCESSED_CLASS) n).isSome &&
        !(closestExists doc p (Sel.byClass CODEBLOCK_PROCESSED_CLASS))
    | none => false)).foldl (processCodeblock getCodeEl)
    { doc := doc, detached := [], nextId := startId, idTrace := trace }

/-- Source `getCodeElFromJekyllRougeCodeblock(codeblock)`: the fixed
three-level `firstElementChild` descent; null when the structure is
malformed (warned and skipped by the caller). -/
def getCodeElFromJekyllRougeCodeblock (codeblock : DNode) : Option DNode :=
  match codeblock.firstElementChild? with
  | some a =>
    match a.firstElementChild? with
    | some b => b.firstElementChild?
    | none => none
  | none => none

/-- Source `getCodeElFromPreCodeblock(codeblock)`: when the `<pre>` has
exactly one child node and its first element child is a `<code>`, that code
element; otherwise the `<pre>` itself. -/
def getCodeElFromPreCodeblock (codeblock : DNode) : Option DNode :=
  if codeblock.children.length = 1 ∧
      codeblock.firstElementChild?.map DNode.tag = some "CODE" then
    codeblock.firstElementChild?
  else
    some codeblock

/-- Source `useEnhancedCodeBlocks(mainElRef)`: first enhance the Jekyll +
Rouge blocks (`div.highlighter-rouge`), then the ordinary `<pre>` blocks,
carrying the id counter from the first pass into the second. -/
def useEnhancedCodeBlocks (doc : DNode) : EnhState :=
  let st1 := enhanceBlocks (Sel.byTagClass "DIV" "highlighter-rouge")
    getCodeElFromJekyllRougeCodeblock 0 doc []
  enhanceBlocks (Sel.byTag "PRE") getCodeElFromPreCodeblock st1.nextId st1.doc
    st1.idTrace

/-- The numeric ids of the enhanced block roots present in a document: `DIV`
elements whose id is `primer-spec-code-block-<digits>`, in document order. -/
def enhancedNumericIds (doc : DNode) : List Nat :=
  (queryAll (Sel.byTag "DIV") doc).filterMap (fun n =>
    if n.idStr.toList.take 23 = "primer-spec-code-block-".toList then
      digitsToNat? 10 (n.idStr.toList.drop 23)
    else none)

/-- A wrapped-shape block whose inner content is a bare `<pre>`: malformed
for the wrapped descent (the `<pre>` holds no element), so the first pass
skips it without marking it, while the second pass enhances the inner
`<pre>`. -/
def docWrappedBarePre : DNode :=
  DNode.elem "MAIN" []
    [DNode.elem "DIV" [("class", "highlighter-rouge")]
      [DNode.elem "PRE" [] [DNode.text "hello\nworld"]]]

/-- Two wrapped-shape blocks, the first malformed (no nested structure), the
second well-formed. -/
def docMalformedThenGood : DNode :=
  DNode.elem "MAIN" []
    [DNode.elem "DIV" [("class", "highlighter-rouge")] [],
     DNode.elem "DIV" [("class", "highlighter-rouge")]
       [DNode.elem "DIV" [("class", "highlight")]
         [DNode.elem "PRE" [("class", "highlight")]
           [DNode.elem "CODE" [] [DNode.text "hi\nthere"]]]]]

/-! ### Counter lemmas for the orchestrator -/

theorem modifyResolved_counter (st : EnhState) (p : List Nat) (f : DNode → DNode) :
    (modifyResolved st p f).nextId = st.nextId ∧
      (modifyResolved st p f).idTrace = st.idTrace := by
  unfold modifyResolved
  split
  · exact ⟨rfl, rfl⟩
  · exact ⟨rfl, rfl⟩

theorem replaceNodeAt_counter (st : EnhState) (p : List Nat) (newNode : DNode) :
    (replaceNodeAt st p newNode).nextId = st.nextId ∧
      (replaceNodeAt st p newNode).idTrace = st.idTrace := by
  unfold replaceNodeAt
  split
  · exact ⟨rfl, rfl⟩
  · constructor
    · show (modifyResolved st p _).nextId = st.nextId
      exact (modifyResolved_counter st p _).1
    · show (modifyResolved st p _).idTrace = st.idTrace
      exact (modifyResolved_counter st p _).2

theorem buildAndReplace_counter (st1 : EnhState) (codeblockNumericId : Nat)
    (p : List Nat) (codeblock codeblockContentsEl : DNode) :
    (buildAndReplace st1 codeblockNumericId p codeblock codeblockContentsEl).nextId
      = st1.nextId ∧
    (buildAndReplace st1 codeblockNumericId p codeblock codeblockContentsEl).idTrace
      = st1.idTrace := by
  unfold buildAndReplace
  split
  · exact ⟨rfl, rfl⟩
  · exact replaceNodeAt_counter st1 p _

/-- Each candidate either draws no id (the retained-legacy branch, or an
unresolvable path) or draws exactly the next id, whether or not it ends up
enhanced. -/
theorem processCodeblock_counter (g : DNode → Option DNode) (st : EnhState)
    (p : List Nat) :
    ((processCodeblock g st p).nextId = st.nextId ∧
      (processCodeblock g st p).idTrace = st.idTrace) ∨
    ((processCodeblock g st p).nextId = st.nextId + 1 ∧
      (processCodeblock g st p).idTrace = st.idTrace ++ [st.nextId]) := by
  unfold processCodeblock
  split
  · exact Or.inl ⟨rfl, rfl⟩
  · split
    · exact Or.inl (modifyResolved_counter st p _)
    · split
      · exact Or.inr ⟨rfl, rfl⟩
      · split
        · exact Or.inr ⟨rfl, rfl⟩
        · exact Or.inr (buildAndReplace_counter _ _ p _ _)

theorem range'_cons_self (a k : Nat) : a :: List.range' (a + 1) k = List.range' a (k + 1) :=
  rfl

theorem foldl_processCodeblock_counter (g : DNode → Option DNode) :
    ∀ (ps : List (List Nat)) (st : EnhState),
      ∃ k, (ps.foldl (processCodeblock g) st).nextId = st.nextId + k ∧
        (ps.foldl (processCodeblock g) st).idTrace =
          st.idTrace ++ List.range' st.nextId k
  | [], st => ⟨0, by simp, by simp⟩
  | p :: ps, st => by
    obtain ⟨k, hk1, hk2⟩ :=
      foldl_processCodeblock_counter g ps (processCodeblock g st p)
    rcases processCodeblock_counter g st p with ⟨h1, h2⟩ | ⟨h1, h2⟩
    · refine ⟨k, ?_, ?_⟩
      · rw [List.foldl_cons, hk1, h1]
      · rw [List.foldl_cons, hk2, h2, h1]
    · refine ⟨k + 1, ?_, ?_⟩
      · rw [List.foldl_cons, hk1, h1]
        omega
      · rw [List.foldl_cons, hk2, h2, h1, List.append_assoc,
          List.singleton_append, range'_cons_self]

theorem range'_add (a : Nat) : ∀ (m n : Nat),
    List.range' a m ++ List.range' (a + m) n = List.range' a (m + n) := by
  intro m
  induction m generalizing a with
  | zero => intro n; simp
  | succ m ih =>
    intro n
    rw [← range'_cons_self a m, List.cons_append]
    have : a + (m + 1) = (a + 1) + m := by omega
    rw [this, ih (a + 1) n, range'_cons_self]
    have : m + n + 1 = m + 1 + n := by omega
    rw [this]

theorem enhanceBlocks_counter (sel : Sel) (g : DNode → Option DNode)
    (startId : Nat) (doc : DNode) (trace : List Nat) :
    ∃ k, (enhanceBlocks sel g startId doc trace).nextId = startId + k ∧
      (enhanceBlocks sel g startId doc trace).idTrace =
        trace ++ List.range' startId k := by
  unfold enhanceBlocks
  exact foldl_processCodeblock_counter g _ _

/-! ### Claim C3 -/

/-- C3 (the code against the claim): the enhancement pass is not idempotent.
For a wrapped-shape block whose whole content is a bare `<pre>`, the first
run skips the wrapper as malformed without marking it processed (and the
enhanced replacement of the inner `<pre>` carries no processed marker class
either), while the second pass enhances the inner `<pre>` into a two-row
block.  On the second run the wrapper passes the filter again, its
`firstElementChild` descent now reaches into the enhanced block, and it is
re-enhanced with empty extracted content: the document changes and the two
rendered rows are destroyed. -/
theorem c3_second_run_changes_document :
    (useEnhancedCodeBlocks (useEnhancedCodeBlocks docWrappedBarePre).doc).doc ≠
      (useEnhancedCodeBlocks docWrappedBarePre).doc
    ∧ (queryAll (Sel.byTag "TR")
        (useEnhancedCodeBlocks docWrappedBarePre).doc).length = 2
    ∧ (queryAll (Sel.byTag "TR")
        (useEnhancedCodeBlocks
          (useEnhancedCodeBlocks docWrappedBarePre).doc).doc).length = 0 :=
  ⟨by decide, by decide, by decide⟩

/-! ### Claim C8 -/

/-- C8 counterexample: the enhanced-block ids are not a gap-free sequence
starting at 0.  With a malformed wrapped block before a well-formed one, the
malformed block consumes id 0 after the counter is incremented but before
the structure check fails, so the only enhanced block carries id 1. -/
theorem c8_counterexample :
    ¬ (enhancedNumericIds (useEnhancedCodeBlocks docMalformedThenGood).doc =
      List.range
        (enhancedNumericIds (useEnhancedCodeBlocks docMalformedThenGood).doc).length) := by
  decide

/-- C8 (amended): within one invocation the block ids are drawn from one
shared counter starting at 0 — the ids drawn form exactly the consecutive
sequence `0, 1, ..., n-1` in processing order (document order within each
pass), with every id drawn by the wrapped (Jekyll/Rouge) pass preceding
every id drawn by the bare `<pre>` pass; a candidate skipped after drawing
(malformed structure, missing parent, null block) leaves its id unused, so
the enhanced blocks carry unique, strictly increasing, but possibly gapped
ids.  Concretely, the malformed-then-good document draws ids `[0, 1]` while
the single enhanced block carries id 1. -/
theorem c8_shared_increasing_id_counter :
    (∀ doc : DNode, ∃ n k, k ≤ n ∧
      (useEnhancedCodeBlocks doc).nextId = n ∧
      (useEnhancedCodeBlocks doc).idTrace = List.range n ∧
      (enhanceBlocks (Sel.byTagClass "DIV" "highlighter-rouge")
        getCodeElFromJekyllRougeCodeblock 0 doc []).idTrace = List.range k)
    ∧ (useEnhancedCodeBlocks docMalformedThenGood).idTrace = [0, 1]
    ∧ enhancedNumericIds (useEnhancedCodeBlocks docMalformedThenGood).doc = [1] := by
  refine ⟨?_, by decide, by decide⟩
  intro doc
  obtain ⟨k1, hk11, hk12⟩ := enhanceBlocks_counter
    (Sel.byTagClass "DIV" "highlighter-rouge")
    getCodeElFromJekyllRougeCodeblock 0 doc []
  obtain ⟨k2, hk21, hk22⟩ := enhanceBlocks_counter (Sel.byTag "PRE")
    getCodeElFromPreCodeblock
    (enhanceBlocks (Sel.byTagClass "DIV" "highlighter-rouge")
      getCodeElFromJekyllRougeCodeblock 0 doc []).nextId
    (enhanceBlocks (Sel.byTagClass "DIV" "highlighter-rouge")
      getCodeElFromJekyllRougeCodeblock 0 doc []).doc
    (enhanceBlocks (Sel.byTagClass "DIV" "highlighter-rouge")
      getCodeElFromJekyllRougeCodeblock 0 doc []).idTrace
  refine ⟨k1 + k2, k1, by omega, ?_, ?_, ?_⟩
  · show (enhanceBlocks (Sel.byTag "PRE") getCodeElFromPreCodeblock _ _ _).nextId
      = k1 + k2
    rw [hk21, hk11]
    omega
  · show (enhanceBlocks (Sel.byTag "PRE") getCodeElFromPreCodeblock _ _ _).idTrace
      = List.range (k1 + k2)
    rw [hk22, hk12, hk11]
    rw [List.nil_append, List.range_eq_range']
    exact range'_add 0 k1 k2
  · rw [hk12, List.nil_append, List.range_eq_range']

end EnhancedCodeBlocks
